import Mathlib

/-!
Shallow embedding of the mosaic-image library (`mosaic.go`) and proofs
checking the natural-language specification against it.

Modelling conventions:
* Go `float64` values and arithmetic are modelled as real numbers (`ℝ`);
  `math.Sqrt` is `Real.sqrt`, `math.MaxFloat64` is the exact real value of
  that constant.
* Go `int` is modelled as `ℤ`.
* A Go panic (index out of range, `rand.Intn(0)`) is modelled by `Option`:
  a function that can panic returns `none` exactly on the inputs where the
  Go code panics.
* The ambient `math/rand` source is made explicit: `rnd : ℕ → ℕ` and the
  i-th call `rand.Intn(n)` returns `rnd i % n` (any in-range index sequence
  is realisable by some seed, and `rand.Intn` always returns a value in
  `[0, n)`).
* `image.Image` is a bounds rectangle plus a function giving, per
  coordinate, the four 16-bit channel values that `Color.RGBA()` returns.
  `image.RGBA` (the output canvas) stores 8-bit channels; `Image.Set`
  ignores writes outside the canvas rectangle, as in Go.
* A Go `for v := a; v < b; v += s` loop visits `stepRange a b s`; for
  `s ≤ 0 < b - a` the Go loop would not terminate, `stepRange` returns `[]`
  there, and every theorem touching such a loop assumes a positive step.
-/

namespace Mosaic

/-- Pixel represents a single pixel with RGB values (Go struct `Pixel`,
`float64` channels modelled as `ℝ`). -/
structure Pixel where
  R : ℝ
  G : ℝ
  B : ℝ

/-- Region defines the area to apply the mosaic effect (Go struct `Region`). -/
structure Region where
  X : ℤ
  Y : ℤ
  Width : ℤ
  Height : ℤ
deriving DecidableEq

/-- MosaicOptions contains configuration for mosaic generation
(Go struct `MosaicOptions`). -/
structure MosaicOptions where
  K : ℤ
  BlockSize : ℤ
  Iterations : ℤ
  Tolerance : ℝ
  Region : Option Region

/-- DefaultOptions returns the default mosaic options (Go `DefaultOptions`);
a `nil` options pointer is modelled as `none : Option MosaicOptions`. -/
def DefaultOptions : MosaicOptions :=
  { K := 8, BlockSize := 10, Iterations := 50, Tolerance := 0.001, Region := none }

/-- An `image.Rectangle` with `Min = (minX, minY)` and `Max = (maxX, maxY)`. -/
structure Rect where
  minX : ℤ
  minY : ℤ
  maxX : ℤ
  maxY : ℤ
deriving DecidableEq

/-- `Dx` of a Go rectangle. -/
def Rect.Dx (r : Rect) : ℤ := r.maxX - r.minX

/-- `Dy` of a Go rectangle. -/
def Rect.Dy (r : Rect) : ℤ := r.maxY - r.minY

/-- Membership of a point in a Go rectangle (`Point.In`). -/
def Rect.Mem (r : Rect) (x y : ℤ) : Prop :=
  r.minX ≤ x ∧ x < r.maxX ∧ r.minY ≤ y ∧ y < r.maxY

instance (r : Rect) (x y : ℤ) : Decidable (r.Mem x y) := by
  unfold Rect.Mem; infer_instance

/-- The four values returned by Go `Color.RGBA()`: alpha-premultiplied
16-bit channels (each in `[0, 65535]` for a lawful `image.Image`). -/
structure Color16 where
  r : ℕ
  g : ℕ
  b : ℕ
  a : ℕ
deriving DecidableEq

/-- A source `image.Image`: its bounds and, per coordinate, what
`img.At(x, y).RGBA()` returns. -/
structure SrcImage where
  bounds : Rect
  At : ℤ → ℤ → Color16

/-- A stored pixel of the output `image.RGBA` canvas: 8-bit channels. -/
structure RGBA where
  r : ℕ
  g : ℕ
  b : ℕ
  a : ℕ
deriving DecidableEq

/-- The output `image.RGBA` canvas: its rectangle and stored pixels. -/
structure Canvas where
  rect : Rect
  At : ℤ → ℤ → RGBA

/-- `img.Set(x, y, c)` on an `image.RGBA`: writes outside the canvas
rectangle are ignored (Go checks `Point{x, y}.In(p.Rect)`). -/
def Canvas.Set (cv : Canvas) (x y : ℤ) (c : RGBA) : Canvas :=
  if cv.rect.Mem x y then
    { cv with At := fun x0 y0 => if x0 = x ∧ y0 = y then c else cv.At x0 y0 }
  else cv

/-- The `color.RGBAModel` conversion used when `draw.Draw` copies a source
color into an `image.RGBA`: each 16-bit channel is shifted right by 8. -/
def rgba8 (c : Color16) : RGBA :=
  { r := c.r / 256, g := c.g / 256, b := c.b / 256, a := c.a / 256 }

/-- `image.NewRGBA(bounds)` followed by
`draw.Draw(mosaic, bounds, img, bounds.Min, draw.Src)`: the canvas holds the
converted source pixel at every in-bounds coordinate and the zero pixel
elsewhere. -/
def newCanvasCopy (img : SrcImage) : Canvas :=
  { rect := img.bounds,
    At := fun x y =>
      if img.bounds.Mem x y then rgba8 (img.At x y) else { r := 0, g := 0, b := 0, a := 0 } }

/-- Conversion of one sampled color to a `Pixel`:
`float64(r) / 65535` per channel. -/
noncomputable def pixelOf (c : Color16) : Pixel :=
  { R := (c.r : ℝ) / 65535, G := (c.g : ℝ) / 65535, B := (c.b : ℝ) / 65535 }

/-- The values visited by a Go loop `for v := start; v < stop; v += step`.
For `step ≤ 0 < stop - start` the Go loop would not terminate; `stepRange`
returns `[]` there and the theorems below assume a positive step. -/
def stepRange (start stop step : ℤ) : List ℤ :=
  if h : 0 < step ∧ start < stop then start :: stepRange (start + step) stop step
  else []
termination_by (stop - start).toNat
decreasing_by
  obtain ⟨h1, h2⟩ := h
  omega

/-- The offsets visited by the inner loops
`for b := 0; b < size && base + b < hi; b++` shared by block-pixel
gathering and `fillBlock`: the loop stops at the first offset whose guard
fails. -/
def takeOffsets (size base hi : ℤ) : List ℤ :=
  (stepRange 0 size 1).takeWhile (fun b => base + b < hi)

/-- `imageToPixels(img, region)`: row-major sampling of the region. -/
noncomputable def imageToPixels (img : SrcImage) (region : Region) : List Pixel :=
  (stepRange region.Y (region.Y + region.Height) 1).flatMap fun y =>
    (stepRange region.X (region.X + region.Width) 1).map fun x => pixelOf (img.At x y)

/-- `distance(p1, p2)`: Euclidean distance between two pixels
(`math.Sqrt(dr*dr + dg*dg + db*db)`). -/
noncomputable def distance (p1 p2 : Pixel) : ℝ :=
  Real.sqrt ((p1.R - p2.R) * (p1.R - p2.R) + (p1.G - p2.G) * (p1.G - p2.G) +
    (p1.B - p2.B) * (p1.B - p2.B))

/-- The exact real value of Go `math.MaxFloat64`. -/
noncomputable def maxFloat64 : ℝ := 2 ^ 1024 - 2 ^ 971

/-- `averagePixels(pixels)`: the zero pixel for an empty list, otherwise
channel-wise `sum / len` with the sums accumulated left to right as in the
Go loop. -/
noncomputable def averagePixels (pixels : List Pixel) : Pixel :=
  if pixels.length = 0 then { R := 0, G := 0, B := 0 }
  else
    { R := (pixels.foldl (fun s p => s + p.R) 0) / (pixels.length : ℝ),
      G := (pixels.foldl (fun s p => s + p.G) 0) / (pixels.length : ℝ),
      B := (pixels.foldl (fun s p => s + p.B) 0) / (pixels.length : ℝ) }

/-- `findNearestCentroidIndex(p, centroids)`: fold over the indexed
centroids keeping `(minDist, nearest)`, starting from
`(math.MaxFloat64, 0)` and updating on a strictly smaller distance. -/
noncomputable def findNearestCentroidIndex (p : Pixel) (centroids : List Pixel) : ℕ :=
  (centroids.enum.foldl
    (fun acc ic => if distance p ic.2 < acc.1 then (distance p ic.2, ic.1) else acc)
    (maxFloat64, 0)).2

/-- `findNearestCentroid(p, centroids)`: `centroids[index]`; `none` models
the index-out-of-range panic on an empty centroid list. -/
noncomputable def findNearestCentroid (p : Pixel) (centroids : List Pixel) : Option Pixel :=
  centroids.get? (findNearestCentroidIndex p centroids)

/-- Centroid initialisation in `kmeans`: `make([]Pixel, k)` panics for a
negative `k` (`none`); each slot `i` is `pixels[rand.Intn(len(pixels))]`,
where `rand.Intn(0)` panics (`none`) on an empty pixel list. -/
noncomputable def initCentroids (pixels : List Pixel) (k : ℤ) (rnd : ℕ → ℕ) :
    Option (List Pixel) :=
  if k < 0 then none
  else
    (List.range k.toNat).mapM fun i =>
      if pixels.length = 0 then none
      else pixels.get? (rnd i % pixels.length)

/-- The assignment step of one `kmeans` round: `clusters` starts as
`make([][]Pixel, k)` and every pixel is appended to
`clusters[findNearestCentroidIndex(p, centroids)]`; an out-of-range
cluster index (possible only for empty `centroids`) panics (`none`). -/
noncomputable def assignClusters (pixels : List Pixel) (k : ℕ) (centroids : List Pixel) :
    Option (List (List Pixel)) :=
  pixels.foldlM
    (fun clusters p =>
      let nearest := findNearestCentroidIndex p centroids
      match clusters.get? nearest with
      | some cl => some (clusters.set nearest (cl ++ [p]))
      | none => none)
    (List.replicate k ([] : List Pixel))

/-- The update step of one `kmeans` round.  The Go loop
`for i := range centroids` both fills `newCentroids[i]` (the cluster mean
when `len(clusters[i]) > 0`, the old centroid otherwise) and folds
`maxDiff` (updated with `distance(centroids[i], newCentroids[i])` only in
the non-empty branch, via `if diff > maxDiff`); the single loop is split
here into the element-wise map and the fold over the same index range. -/
noncomputable def updateCentroids (centroids : List Pixel) (clusters : List (List Pixel)) :
    List Pixel × ℝ :=
  ((List.range centroids.length).map fun i =>
      if 0 < (clusters.getD i []).length then averagePixels (clusters.getD i [])
      else centroids.getD i { R := 0, G := 0, B := 0 },
    (List.range centroids.length).foldl
      (fun m i =>
        if 0 < (clusters.getD i []).length then
          let d := distance (centroids.getD i { R := 0, G := 0, B := 0 })
            (averagePixels (clusters.getD i []))
          if d > m then d else m
        else m)
      0)

/-- The `kmeans` refinement loop: at most `fuel` rounds (`fuel` is the
`maxIterations` argument); each round assigns, updates, replaces the
centroids and breaks when `maxDiff < tolerance`. -/
noncomputable def kmeansLoop (pixels : List Pixel) (k : ℕ) (tolerance : ℝ) :
    ℕ → List Pixel → Option (List Pixel)
  | 0, centroids => some centroids
  | fuel + 1, centroids =>
    match assignClusters pixels k centroids with
    | none => none
    | some clusters =>
      let u := updateCentroids centroids clusters
      if u.2 < tolerance then some u.1
      else kmeansLoop pixels k tolerance fuel u.1

/-- `kmeans(pixels, k, maxIterations, tolerance)` with the random index
sequence made explicit. -/
noncomputable def kmeans (pixels : List Pixel) (k maxIterations : ℤ) (tolerance : ℝ)
    (rnd : ℕ → ℕ) : Option (List Pixel) :=
  match initCentroids pixels k rnd with
  | none => none
  | some centroids => kmeansLoop pixels k.toNat tolerance maxIterations.toNat centroids

/-- The full-image region built inline by `CreateMosaic` both for a `nil`
region and as the fallback for an invalid one. -/
def fullRegion (bounds : Rect) : Region :=
  { X := bounds.minX, Y := bounds.minY, Width := bounds.Dx, Height := bounds.Dy }

/-- Region resolution as `CreateMosaic` performs it inline: a `nil` region
becomes the full image; a requested region violating any of the four bound
checks is silently replaced by the full image, otherwise kept unchanged. -/
def resolveRegion (bounds : Rect) (requested : Option Region) : Region :=
  let region := requested.getD (fullRegion bounds)
  if region.X < bounds.minX ∨ region.Y < bounds.minY ∨
      region.X + region.Width > bounds.maxX ∨ region.Y + region.Height > bounds.maxY then
    fullRegion bounds
  else region

/-- The pixels gathered for the block anchored at `(x, y)`: offsets run
while `b < BlockSize && anchor + b < region far edge` (the gathering clips
at the region, unlike `fillBlock`). -/
noncomputable def blockPixels (img : SrcImage) (region : Region) (blockSize x y : ℤ) :
    List Pixel :=
  (takeOffsets blockSize y (region.Y + region.Height)).flatMap fun oy =>
    (takeOffsets blockSize x (region.X + region.Width)).map fun ox =>
      pixelOf (img.At (x + ox) (y + oy))

/-- `uint8(v * 255)` for a channel value `v`: Go truncates the float toward
zero, which for the in-range non-negative values arising here is the floor
(clamped at 0 for a negative argument by `Int.toNat`). -/
noncomputable def chan8 (v : ℝ) : ℕ := (⌊v * 255⌋).toNat

/-- The `color.RGBA` block color built from a centroid: truncated channels
and alpha 255. -/
noncomputable def blockColorOf (p : Pixel) : RGBA :=
  { r := chan8 p.R, g := chan8 p.G, b := chan8 p.B, a := 255 }

/-- `fillBlock(img, x, y, size, c)`: paints offsets `ox, oy ∈ [0, size)`
clipped only at the canvas rectangle's `Max` edge (not at the region). -/
def fillBlock (cv : Canvas) (x y size : ℤ) (c : RGBA) : Canvas :=
  (takeOffsets size y cv.rect.maxY).foldl
    (fun cv1 oy =>
      (takeOffsets size x cv.rect.maxX).foldl
        (fun cv2 ox => cv2.Set (x + ox) (y + oy) c) cv1)
    cv

/-- The block loop of `CreateMosaic`: anchors step by `BlockSize` over the
resolved region; each block's average color is matched to the nearest
centroid (panic, `none`, on an empty centroid list) and painted. -/
noncomputable def renderBlocks (img : SrcImage) (cv : Canvas) (region : Region)
    (blockSize : ℤ) (centroids : List Pixel) : Option Canvas :=
  (stepRange region.Y (region.Y + region.Height) blockSize).foldlM
    (fun cv1 y =>
      (stepRange region.X (region.X + region.Width) blockSize).foldlM
        (fun cv2 x =>
          match findNearestCentroid (averagePixels (blockPixels img region blockSize x y))
              centroids with
          | none => none
          | some avgColor => some (fillBlock cv2 x y blockSize (blockColorOf avgColor)))
        cv1)
    cv

/-- `CreateMosaic(img, opts)` with the random index sequence explicit:
default options for `nil`, inline region resolution, source copy, sampling,
clustering, block rendering. -/
noncomputable def CreateMosaic (img : SrcImage) (opts0 : Option MosaicOptions)
    (rnd : ℕ → ℕ) : Option Canvas :=
  let opts := opts0.getD DefaultOptions
  let bounds := img.bounds
  let region := resolveRegion bounds opts.Region
  let mosaic := newCanvasCopy img
  let pixels := imageToPixels img region
  match kmeans pixels opts.K opts.Iterations opts.Tolerance rnd with
  | none => none
  | some centroids => renderBlocks img mosaic region opts.BlockSize centroids

/-! ### Loop-range lemmas -/

theorem stepRange_nil (start stop step : ℤ) (h : ¬(0 < step ∧ start < stop)) :
    stepRange start stop step = [] := by
  rw [stepRange, dif_neg h]

theorem stepRange_cons (start stop step : ℤ) (h1 : 0 < step) (h2 : start < stop) :
    stepRange start stop step = start :: stepRange (start + step) stop step := by
  rw [stepRange, dif_pos ⟨h1, h2⟩]

theorem mem_stepRange (z : ℤ) : ∀ start stop step : ℤ, 0 < step →
    (z ∈ stepRange start stop step ↔ ∃ i : ℕ, z = start + i * step ∧ z < stop) := by
  intro start stop step
  induction start, stop, step using stepRange.induct with
  | case1 start stop step h ih =>
    intro hstep
    rw [stepRange_cons _ _ _ h.1 h.2]
    simp only [List.mem_cons, ih h.1]
    constructor
    · rintro (rfl | ⟨i, rfl, hz⟩)
      · exact ⟨0, by ring_nf, h.2⟩
      · exact ⟨i + 1, by push_cast; ring, hz⟩
    · rintro ⟨i, rfl, hz⟩
      cases i with
      | zero => left; ring_nf
      | succ i => right; exact ⟨i, by push_cast; ring, hz⟩
  | case2 start stop step h =>
    intro hstep
    rw [stepRange_nil _ _ _ h]
    simp only [List.not_mem_nil, false_iff, not_exists, not_and]
    intro i hz
    have hstartstop : stop ≤ start := by
      rcases not_and_or.1 h with h1 | h1
      · exact absurd hstep h1
      · omega
    have : 0 ≤ (i : ℤ) * step := mul_nonneg (Int.natCast_nonneg i) (le_of_lt hstep)
    omega

theorem mem_stepRange_one (z start stop : ℤ) :
    z ∈ stepRange start stop 1 ↔ start ≤ z ∧ z < stop := by
  rw [mem_stepRange z start stop 1 one_pos]
  constructor
  · rintro ⟨i, rfl, hz⟩
    have : 0 ≤ (i : ℤ) := Int.natCast_nonneg i
    omega
  · rintro ⟨h1, h2⟩
    exact ⟨(z - start).toNat, by omega, h2⟩

theorem takeWhile_stepRange_lt (base hi : ℤ) (start stop : ℤ) :
    ((stepRange start stop 1).takeWhile fun b => base + b < hi) =
      stepRange start (min stop (hi - base)) 1 := by
  have key : ∀ n : ℕ, ∀ start stop : ℤ, (stop - start).toNat = n →
      ((stepRange start stop 1).takeWhile fun b => base + b < hi) =
        stepRange start (min stop (hi - base)) 1 := by
    intro n
    induction n using Nat.strong_induction_on with
    | _ n ih =>
      intro start stop hn
      by_cases h : start < stop
      · rw [stepRange_cons _ _ _ one_pos h]
        by_cases hb : base + start < hi
        · rw [List.takeWhile_cons_of_pos (by simpa using hb),
            ih (stop - (start + 1)).toNat (by omega) (start + 1) stop rfl]
          exact (stepRange_cons start (min stop (hi - base)) 1 one_pos (by omega)).symm
        · rw [List.takeWhile_cons_of_neg (by simpa using hb),
            stepRange_nil _ _ _ (by omega)]
      · rw [stepRange_nil _ _ _ (by omega), List.takeWhile_nil,
          stepRange_nil _ _ _ (by omega)]
  exact key (stop - start).toNat start stop rfl

theorem mem_takeOffsets (b size base hi : ℤ) :
    b ∈ takeOffsets size base hi ↔ 0 ≤ b ∧ b < size ∧ base + b < hi := by
  unfold takeOffsets
  rw [takeWhile_stepRange_lt, mem_stepRange_one]
  omega

/-! ### Canvas and fillBlock lemmas -/

theorem Canvas.rect_Set (cv : Canvas) (x y : ℤ) (c : RGBA) :
    (cv.Set x y c).rect = cv.rect := by
  unfold Canvas.Set
  split <;> rfl

theorem Canvas.At_Set (cv : Canvas) (x y : ℤ) (c : RGBA) (x0 y0 : ℤ) :
    (cv.Set x y c).At x0 y0 =
      if (x0 = x ∧ y0 = y) ∧ cv.rect.Mem x y then c else cv.At x0 y0 := by
  unfold Canvas.Set
  by_cases hm : cv.rect.Mem x y
  · rw [if_pos hm]
    by_cases he : x0 = x ∧ y0 = y
    · simp [he, hm]
    · simp [he, hm]
  · rw [if_neg hm]
    simp [hm]

theorem foldl_SetRow_rect (cv1 : Canvas) (L : List ℤ) (x yy : ℤ) (c : RGBA) :
    (L.foldl (fun cv2 ox => cv2.Set (x + ox) yy c) cv1).rect = cv1.rect := by
  induction L generalizing cv1 with
  | nil => rfl
  | cons a L ih => rw [List.foldl_cons, ih, Canvas.rect_Set]

theorem foldl_SetRow_At (cv1 : Canvas) (L : List ℤ) (x yy : ℤ) (c : RGBA) (x0 y0 : ℤ) :
    (L.foldl (fun cv2 ox => cv2.Set (x + ox) yy c) cv1).At x0 y0 =
      if (∃ ox ∈ L, x0 = x + ox) ∧ y0 = yy ∧ cv1.rect.Mem x0 y0 then c
      else cv1.At x0 y0 := by
  induction L generalizing cv1 with
  | nil => simp
  | cons a L ih =>
    rw [List.foldl_cons, ih, Canvas.rect_Set, Canvas.At_Set]
    by_cases htail : (∃ ox ∈ L, x0 = x + ox) ∧ y0 = yy ∧ cv1.rect.Mem x0 y0
    · rw [if_pos htail, if_pos]
      obtain ⟨⟨ox, hox, hx⟩, hy, hmem⟩ := htail
      exact ⟨⟨ox, List.mem_cons_of_mem a hox, hx⟩, hy, hmem⟩
    · rw [if_neg htail]
      by_cases hhead : (x0 = x + a ∧ y0 = yy) ∧ cv1.rect.Mem (x + a) yy
      · rw [if_pos hhead, if_pos]
        refine ⟨⟨a, List.mem_cons_self a L, hhead.1.1⟩, hhead.1.2, ?_⟩
        rw [hhead.1.1, hhead.1.2]
        exact hhead.2
      · rw [if_neg hhead, if_neg]
        rintro ⟨⟨ox, hox, rfl⟩, rfl, hmem⟩
        rcases List.mem_cons.1 hox with h1 | h1
        · subst h1
          exact hhead ⟨⟨rfl, rfl⟩, hmem⟩
        · exact htail ⟨⟨ox, h1, rfl⟩, rfl, hmem⟩

theorem foldl_SetRows_rect (cv : Canvas) (Ly Lx : List ℤ) (x y : ℤ) (c : RGBA) :
    ((Ly.foldl (fun cv1 oy =>
        Lx.foldl (fun cv2 ox => cv2.Set (x + ox) (y + oy) c) cv1) cv).rect) = cv.rect := by
  induction Ly generalizing cv with
  | nil => rfl
  | cons b Ly ih => rw [List.foldl_cons, ih, foldl_SetRow_rect]

theorem foldl_SetRows_At (cv : Canvas) (Ly Lx : List ℤ) (x y : ℤ) (c : RGBA) (x0 y0 : ℤ) :
    ((Ly.foldl (fun cv1 oy =>
        Lx.foldl (fun cv2 ox => cv2.Set (x + ox) (y + oy) c) cv1) cv).At x0 y0) =
      if (∃ oy ∈ Ly, y0 = y + oy) ∧ (∃ ox ∈ Lx, x0 = x + ox) ∧ cv.rect.Mem x0 y0 then c
      else cv.At x0 y0 := by
  induction Ly generalizing cv with
  | nil => simp
  | cons b Ly ih =>
    rw [List.foldl_cons, ih, foldl_SetRow_rect, foldl_SetRow_At]
    by_cases htail : (∃ oy ∈ Ly, y0 = y + oy) ∧ (∃ ox ∈ Lx, x0 = x + ox) ∧ cv.rect.Mem x0 y0
    · rw [if_pos htail, if_pos]
      obtain ⟨⟨oy, hoy, hy⟩, hrest⟩ := htail
      exact ⟨⟨oy, List.mem_cons_of_mem b hoy, hy⟩, hrest⟩
    · rw [if_neg htail]
      by_cases hhead : (∃ ox ∈ Lx, x0 = x + ox) ∧ y0 = y + b ∧ cv.rect.Mem x0 y0
      · rw [if_pos hhead, if_pos]
        exact ⟨⟨b, List.mem_cons_self b Ly, hhead.2.1⟩, hhead.1, hhead.2.2⟩
      · rw [if_neg hhead, if_neg]
        rintro ⟨⟨oy, hoy, rfl⟩, hx, hmem⟩
        rcases List.mem_cons.1 hoy with h1 | h1
        · subst h1
          exact hhead ⟨hx, rfl, hmem⟩
        · exact htail ⟨⟨oy, h1, rfl⟩, hx, hmem⟩

theorem fillBlock_rect (cv : Canvas) (x y size : ℤ) (c : RGBA) :
    (fillBlock cv x y size c).rect = cv.rect := by
  unfold fillBlock
  exact foldl_SetRows_rect cv _ _ x y c

theorem fillBlock_At (cv : Canvas) (x y size : ℤ) (c : RGBA) (x0 y0 : ℤ) :
    (fillBlock cv x y size c).At x0 y0 =
      if x ≤ x0 ∧ x0 < x + size ∧ x0 < cv.rect.maxX ∧
          y ≤ y0 ∧ y0 < y + size ∧ y0 < cv.rect.maxY ∧ cv.rect.Mem x0 y0 then c
      else cv.At x0 y0 := by
  unfold fillBlock
  rw [foldl_SetRows_At]
  congr 1
  simp only [eq_iff_iff]
  constructor
  · rintro ⟨⟨oy, hoy, rfl⟩, ⟨ox, hox, rfl⟩, hmem⟩
    rw [mem_takeOffsets] at hoy hox
    exact ⟨by omega, by omega, by omega, by omega, by omega, by omega, hmem⟩
  · rintro ⟨h1, h2, h3, h4, h5, h6, hmem⟩
    exact ⟨⟨y0 - y, by rw [mem_takeOffsets]; omega, by omega⟩,
      ⟨x0 - x, by rw [mem_takeOffsets]; omega, by omega⟩, hmem⟩

/-! ### Nearest-centroid fold lemmas -/

/-- The zero value of the Go struct `Pixel`. -/
def zeroPixel : Pixel := { R := 0, G := 0, B := 0 }

instance : Inhabited Pixel := ⟨zeroPixel⟩

theorem nearestFold_snd (p : Pixel) :
    ∀ (cs : List Pixel) (n : ℕ) (m : ℝ) (j : ℕ),
      ((List.enumFrom n cs).foldl
          (fun acc ic => if distance p ic.2 < acc.1 then (distance p ic.2, ic.1) else acc)
          (m, j)).2 = j ∨
        ∃ k : ℕ, k < cs.length ∧
          ((List.enumFrom n cs).foldl
              (fun acc ic => if distance p ic.2 < acc.1 then (distance p ic.2, ic.1) else acc)
              (m, j)).2 = n + k := by
  intro cs
  induction cs with
  | nil => intro n m j; left; rfl
  | cons c cs ih =>
    intro n m j
    rw [show List.enumFrom n (c :: cs) = (n, c) :: List.enumFrom (n + 1) cs from rfl]
    simp only [List.foldl_cons]
    by_cases hd : distance p c < m
    · rw [if_pos hd]
      rcases ih (n + 1) (distance p c) n with h | ⟨k, hk, h⟩
      · right; exact ⟨0, Nat.succ_pos _, by rw [h]; omega⟩
      · right; exact ⟨k + 1, by simpa using hk, by rw [h]; ring⟩
    · rw [if_neg hd]
      rcases ih (n + 1) m j with h | ⟨k, hk, h⟩
      · left; exact h
      · right; exact ⟨k + 1, by simpa using hk, by rw [h]; ring⟩

theorem findNearestCentroidIndex_lt_length (p : Pixel) (cs : List Pixel) (h : cs ≠ []) :
    findNearestCentroidIndex p cs < cs.length := by
  unfold findNearestCentroidIndex
  have hlen : 0 < cs.length := List.length_pos.2 h
  rcases nearestFold_snd p cs 0 maxFloat64 0 with h1 | ⟨k, hk, h1⟩
  · rw [show cs.enum = cs.enumFrom 0 from rfl, h1]; exact hlen
  · rw [show cs.enum = cs.enumFrom 0 from rfl, h1]; omega

theorem nearestFold_spec (p : Pixel) :
    ∀ (cs : List Pixel) (n : ℕ) (m : ℝ) (j : ℕ),
      (((List.enumFrom n cs).foldl
          (fun acc ic => if distance p ic.2 < acc.1 then (distance p ic.2, ic.1) else acc)
          (m, j)) = (m, j) ∧ ∀ c ∈ cs, m ≤ distance p c) ∨
        ∃ k : ℕ, k < cs.length ∧
          ((List.enumFrom n cs).foldl
              (fun acc ic => if distance p ic.2 < acc.1 then (distance p ic.2, ic.1) else acc)
              (m, j)) = (distance p (cs.getD k zeroPixel), n + k) ∧
          distance p (cs.getD k zeroPixel) < m ∧
          (∀ i < cs.length, distance p (cs.getD k zeroPixel) ≤ distance p (cs.getD i zeroPixel)) ∧
          (∀ i < k, distance p (cs.getD k zeroPixel) < distance p (cs.getD i zeroPixel)) := by
  intro cs
  induction cs with
  | nil => intro n m j; left; exact ⟨rfl, by simp⟩
  | cons c cs ih =>
    intro n m j
    rw [show List.enumFrom n (c :: cs) = (n, c) :: List.enumFrom (n + 1) cs from rfl]
    simp only [List.foldl_cons]
    by_cases hd : distance p c < m
    · rw [if_pos hd]
      rcases ih (n + 1) (distance p c) n with ⟨h1, h2⟩ | ⟨k, hk, h1, h2, h3, h4⟩
      · right
        refine ⟨0, Nat.succ_pos _, ?_, ?_, ?_, ?_⟩
        · rw [h1, List.getD_cons_zero, Nat.add_zero]
        · rw [List.getD_cons_zero]; exact hd
        · intro i hi
          rw [List.getD_cons_zero]
          cases i with
          | zero => rw [List.getD_cons_zero]
          | succ i =>
            rw [List.getD_cons_succ]
            have hi2 : i < cs.length := by simpa using hi
            rw [List.getD_eq_getElem cs zeroPixel hi2]
            exact h2 _ (List.getElem_mem hi2)
        · intro i hi; omega
      · right
        refine ⟨k + 1, by simpa using hk, ?_, ?_, ?_, ?_⟩
        · rw [h1, List.getD_cons_succ]
          congr 1
          ring
        · rw [List.getD_cons_succ]; exact lt_trans h2 hd
        · intro i hi
          rw [List.getD_cons_succ]
          cases i with
          | zero => rw [List.getD_cons_zero]; exact le_of_lt h2
          | succ i => rw [List.getD_cons_succ]; exact h3 i (by simpa using hi)
        · intro i hi
          rw [List.getD_cons_succ]
          cases i with
          | zero => rw [List.getD_cons_zero]; exact h2
          | succ i => rw [List.getD_cons_succ]; exact h4 i (by omega)
    · rw [if_neg hd]
      rcases ih (n + 1) m j with ⟨h1, h2⟩ | ⟨k, hk, h1, h2, h3, h4⟩
      · left
        refine ⟨h1, ?_⟩
        intro c1 hc1
        rcases List.mem_cons.1 hc1 with rfl | hc1
        · exact le_of_not_lt hd
        · exact h2 _ hc1
      · right
        refine ⟨k + 1, by simpa using hk, ?_, ?_, ?_, ?_⟩
        · rw [h1, List.getD_cons_succ]
          congr 1
          ring
        · rw [List.getD_cons_succ]; exact h2
        · intro i hi
          rw [List.getD_cons_succ]
          cases i with
          | zero =>
            rw [List.getD_cons_zero]
            exact le_of_lt (lt_of_lt_of_le h2 (le_of_not_lt hd))
          | succ i => rw [List.getD_cons_succ]; exact h3 i (by simpa using hi)
        · intro i hi
          rw [List.getD_cons_succ]
          cases i with
          | zero => rw [List.getD_cons_zero]; exact lt_of_lt_of_le h2 (le_of_not_lt hd)
          | succ i => rw [List.getD_cons_succ]; exact h4 i (by omega)

/-! ### averagePixels lemmas -/

theorem foldl_add_eq_sum (f : Pixel → ℝ) (l : List Pixel) (a : ℝ) :
    l.foldl (fun s p => s + f p) a = a + (l.map f).sum := by
  induction l generalizing a with
  | nil => simp
  | cons p l ih => rw [List.foldl_cons, ih, List.map_cons, List.sum_cons]; ring

theorem averagePixels_singleton (p : Pixel) : averagePixels [p] = p := by
  unfold averagePixels
  simp

theorem averagePixels_perm (l l2 : List Pixel) (h : l.Perm l2) :
    averagePixels l = averagePixels l2 := by
  unfold averagePixels
  rw [foldl_add_eq_sum, foldl_add_eq_sum, foldl_add_eq_sum, foldl_add_eq_sum,
    foldl_add_eq_sum, foldl_add_eq_sum, h.length_eq,
    (h.map Pixel.R).sum_eq, (h.map Pixel.G).sum_eq, (h.map Pixel.B).sum_eq]

theorem averagePixels_mean (l : List Pixel) (h : l ≠ []) :
    averagePixels l =
      { R := (l.map Pixel.R).sum / (l.length : ℝ),
        G := (l.map Pixel.G).sum / (l.length : ℝ),
        B := (l.map Pixel.B).sum / (l.length : ℝ) } := by
  unfold averagePixels
  rw [if_neg (by simpa using h)]
  rw [foldl_add_eq_sum, foldl_add_eq_sum, foldl_add_eq_sum]
  simp

/-! ### distance lemmas -/

theorem distance_self (p : Pixel) : distance p p = 0 := by
  unfold distance
  simp

/-- Channel validity from the data model: every channel in `[0, 1]`. -/
def Pixel.Valid (p : Pixel) : Prop :=
  0 ≤ p.R ∧ p.R ≤ 1 ∧ 0 ≤ p.G ∧ p.G ≤ 1 ∧ 0 ≤ p.B ∧ p.B ≤ 1

theorem distance_nonneg (p q : Pixel) : 0 ≤ distance p q := Real.sqrt_nonneg _

theorem distance_lt_maxFloat64 (p q : Pixel) (hp : p.Valid) (hq : q.Valid) :
    distance p q < maxFloat64 := by
  obtain ⟨hp1, hp2, hp3, hp4, hp5, hp6⟩ := hp
  obtain ⟨hq1, hq2, hq3, hq4, hq5, hq6⟩ := hq
  unfold distance maxFloat64
  have h2 : (0 : ℝ) < 2 ^ 1024 - 2 ^ 971 := by norm_num
  rw [show (2 : ℝ) ^ 1024 - 2 ^ 971 = Real.sqrt ((2 ^ 1024 - 2 ^ 971) ^ 2) from
    (Real.sqrt_sq (le_of_lt h2)).symm]
  apply Real.sqrt_lt_sqrt
  · nlinarith
  · nlinarith

/-! ### assignClusters lemmas -/

theorem assign_foldlM_some (centroids : List Pixel) (hne : centroids ≠ []) :
    ∀ (pixels : List Pixel) (cls : List (List Pixel))
      (hlen : centroids.length ≤ cls.length),
      ∃ out : List (List Pixel),
        pixels.foldlM
          (fun clusters p =>
            let nearest := findNearestCentroidIndex p centroids
            match clusters.get? nearest with
            | some cl => some (clusters.set nearest (cl ++ [p]))
            | none => none)
          cls = some out ∧ out.length = cls.length := by
  intro pixels
  induction pixels with
  | nil => intro cls _; exact ⟨cls, rfl, rfl⟩
  | cons p ps ih =>
    intro cls hlen
    have hidx : findNearestCentroidIndex p centroids < cls.length :=
      lt_of_lt_of_le (findNearestCentroidIndex_lt_length p centroids hne) hlen
    have hget : cls.get? (findNearestCentroidIndex p centroids) =
        some (cls.get ⟨findNearestCentroidIndex p centroids, hidx⟩) :=
      List.get?_eq_get hidx
    rw [List.foldlM_cons]
    simp only [hget]
    obtain ⟨out, hout, heq⟩ := ih
      (cls.set (findNearestCentroidIndex p centroids)
        (cls.get ⟨findNearestCentroidIndex p centroids, hidx⟩ ++ [p]))
      (by rw [List.length_set]; exact hlen)
    refine ⟨out, ?_, by rw [heq, List.length_set]⟩
    rw [← hout]
    rfl

theorem assignClusters_some (pixels : List Pixel) (k : ℕ) (centroids : List Pixel)
    (hne : centroids ≠ []) (hk : centroids.length = k) :
    ∃ cls, assignClusters pixels k centroids = some cls ∧ cls.length = k := by
  unfold assignClusters
  obtain ⟨out, hout, heq⟩ := assign_foldlM_some centroids hne pixels
    (List.replicate k ([] : List Pixel)) (by rw [List.length_replicate]; omega)
  exact ⟨out, hout, by rw [heq, List.length_replicate]⟩

/-! ### updateCentroids lemmas -/

theorem updateCentroids_length (centroids : List Pixel) (clusters : List (List Pixel)) :
    (updateCentroids centroids clusters).1.length = centroids.length := by
  unfold updateCentroids
  rw [List.length_map, List.length_range]

theorem updateCentroids_getD (centroids : List Pixel) (clusters : List (List Pixel))
    (i : ℕ) (hi : i < centroids.length) :
    (updateCentroids centroids clusters).1.getD i zeroPixel =
      if 0 < (clusters.getD i []).length then averagePixels (clusters.getD i [])
      else centroids.getD i zeroPixel := by
  unfold updateCentroids
  have hi2 : i < ((List.range centroids.length).map fun i =>
      if 0 < (clusters.getD i []).length then averagePixels (clusters.getD i [])
      else centroids.getD i { R := 0, G := 0, B := 0 }).length := by
    rw [List.length_map, List.length_range]; exact hi
  rw [List.getD_eq_getElem _ _ hi2]
  simp only [List.getElem_map, List.getElem_range]
  rfl

theorem foldl_condMax (cond : ℕ → Prop) [DecidablePred cond] (d : ℕ → ℝ) :
    ∀ (L : List ℕ) (m0 : ℝ),
      m0 ≤ L.foldl (fun m i => if cond i then (if d i > m then d i else m) else m) m0 ∧
      (∀ i ∈ L, cond i →
        d i ≤ L.foldl (fun m i => if cond i then (if d i > m then d i else m) else m) m0) ∧
      (L.foldl (fun m i => if cond i then (if d i > m then d i else m) else m) m0 = m0 ∨
        ∃ i ∈ L, cond i ∧
          L.foldl (fun m i => if cond i then (if d i > m then d i else m) else m) m0 = d i) := by
  intro L
  induction L with
  | nil => intro m0; exact ⟨le_refl _, by simp, Or.inl rfl⟩
  | cons a L ih =>
    intro m0
    rw [List.foldl_cons]
    set m1 : ℝ := if cond a then (if d a > m0 then d a else m0) else m0 with hm1
    obtain ⟨ih1, ih2, ih3⟩ := ih m1
    have hm0m1 : m0 ≤ m1 := by
      rw [hm1]
      split
      · split
        · linarith [le_of_lt (by assumption : d a > m0)]
        · exact le_refl _
      · exact le_refl _
    have hda : cond a → d a ≤ m1 := by
      intro hc
      rw [hm1, if_pos hc]
      split
      · exact le_refl _
      · exact le_of_not_lt (by assumption)
    refine ⟨le_trans hm0m1 ih1, ?_, ?_⟩
    · intro i hi hc
      rcases List.mem_cons.1 hi with rfl | hi
      · exact le_trans (hda hc) ih1
      · exact ih2 i hi hc
    · rcases ih3 with h | ⟨i, hi, hc, h⟩
      · by_cases hca : cond a
        · by_cases hgt : d a > m0
          · right
            refine ⟨a, List.mem_cons_self a L, hca, ?_⟩
            rw [h, hm1, if_pos hca, if_pos hgt]
          · left
            rw [h, hm1, if_pos hca, if_neg hgt]
        · left
          rw [h, hm1, if_neg hca]
      · right
        exact ⟨i, List.mem_cons_of_mem a hi, hc, h⟩

theorem updateCentroids_maxDiff_nonneg (centroids : List Pixel)
    (clusters : List (List Pixel)) : 0 ≤ (updateCentroids centroids clusters).2 := by
  unfold updateCentroids
  exact (foldl_condMax (fun i => 0 < (clusters.getD i []).length) _ _ 0).1

theorem updateCentroids_maxDiff_bound (centroids : List Pixel)
    (clusters : List (List Pixel)) (i : ℕ) (hi : i < centroids.length) :
    distance (centroids.getD i zeroPixel)
        ((updateCentroids centroids clusters).1.getD i zeroPixel) ≤
      (updateCentroids centroids clusters).2 := by
  rw [updateCentroids_getD centroids clusters i hi]
  by_cases hc : 0 < (clusters.getD i []).length
  · rw [if_pos hc]
    have := (foldl_condMax (fun i => 0 < (clusters.getD i []).length)
      (fun i => distance (centroids.getD i { R := 0, G := 0, B := 0 })
        (averagePixels (clusters.getD i []))) (List.range centroids.length) 0).2.1
      i (List.mem_range.2 hi) hc
    exact this
  · rw [if_neg hc, distance_self]
    exact updateCentroids_maxDiff_nonneg centroids clusters

theorem updateCentroids_maxDiff_attained (centroids : List Pixel)
    (clusters : List (List Pixel)) :
    (updateCentroids centroids clusters).2 = 0 ∨
      ∃ i < centroids.length,
        distance (centroids.getD i zeroPixel)
            ((updateCentroids centroids clusters).1.getD i zeroPixel) =
          (updateCentroids centroids clusters).2 := by
  rcases (foldl_condMax (fun i => 0 < (clusters.getD i []).length)
      (fun i => distance (centroids.getD i { R := 0, G := 0, B := 0 })
        (averagePixels (clusters.getD i []))) (List.range centroids.length) 0).2.2 with
    h | ⟨i, hi, hc, h⟩
  · left; exact h
  · right
    have hi2 : i < centroids.length := List.mem_range.1 hi
    refine ⟨i, hi2, ?_⟩
    rw [updateCentroids_getD centroids clusters i hi2, if_pos hc]
    exact h.symm

/-! ### kmeans loop lemmas -/

theorem kmeansLoop_some (pixels : List Pixel) (k : ℕ) (tol : ℝ) :
    ∀ (fuel : ℕ) (centroids : List Pixel), centroids ≠ [] → centroids.length = k →
      ∃ out, kmeansLoop pixels k tol fuel centroids = some out ∧ out.length = k ∧ out ≠ [] := by
  intro fuel
  induction fuel with
  | zero =>
    intro centroids hne hk
    exact ⟨centroids, rfl, hk, hne⟩
  | succ fuel ih =>
    intro centroids hne hk
    obtain ⟨cls, hcls, hclslen⟩ := assignClusters_some pixels k centroids hne hk
    have hkpos : 0 < k := by
      rw [← hk]
      exact List.length_pos.2 hne
    have hulen : (updateCentroids centroids cls).1.length = k := by
      rw [updateCentroids_length, hk]
    have hune : (updateCentroids centroids cls).1 ≠ [] := by
      intro hnil
      rw [hnil] at hulen
      simp at hulen
      omega
    unfold kmeansLoop
    rw [hcls]
    dsimp only
    by_cases hconv : (updateCentroids centroids cls).2 < tol
    · rw [if_pos hconv]
      exact ⟨_, rfl, hulen, hune⟩
    · rw [if_neg hconv]
      exact ih _ hune hulen

theorem mapM_range_some (f : ℕ → Option Pixel) :
    ∀ (L : List ℕ), (∀ i ∈ L, (f i).isSome) →
      ∃ out : List Pixel, L.mapM f = some out ∧ out.length = L.length := by
  intro L
  induction L with
  | nil => intro _; exact ⟨[], rfl, rfl⟩
  | cons a L ih =>
    intro hall
    obtain ⟨b, hb⟩ := Option.isSome_iff_exists.1 (hall a (List.mem_cons_self a L))
    obtain ⟨out, hout, hlen⟩ := ih fun i hi => hall i (List.mem_cons_of_mem a hi)
    refine ⟨b :: out, ?_, by simp [hlen]⟩
    rw [List.mapM_cons, hb, hout]
    rfl

theorem initCentroids_some (pixels : List Pixel) (k : ℤ) (rnd : ℕ → ℕ)
    (hk : 0 ≤ k) (hne : pixels ≠ []) :
    ∃ cs, initCentroids pixels k rnd = some cs ∧ cs.length = k.toNat := by
  unfold initCentroids
  rw [if_neg (by omega)]
  have hlen : 0 < pixels.length := List.length_pos.2 hne
  have hsome : ∀ i ∈ List.range k.toNat,
      ((fun i => if pixels.length = 0 then none
        else pixels.get? (rnd i % pixels.length)) i).isSome := by
    intro i _
    simp only
    rw [if_neg (by omega), List.get?_eq_get (Nat.mod_lt _ hlen)]
    rfl
  obtain ⟨out, hout, holen⟩ := mapM_range_some
    (fun i => if pixels.length = 0 then none else pixels.get? (rnd i % pixels.length))
    (List.range k.toNat) hsome
  exact ⟨out, hout, by rw [holen, List.length_range]⟩

theorem kmeans_some (pixels : List Pixel) (k maxIterations : ℤ) (tol : ℝ) (rnd : ℕ → ℕ)
    (hk : 0 < k) (hne : pixels ≠ []) :
    ∃ cs, kmeans pixels k maxIterations tol rnd = some cs ∧ cs.length = k.toNat ∧ cs ≠ [] := by
  obtain ⟨cs0, hcs0, hlen0⟩ := initCentroids_some pixels k rnd (le_of_lt hk) hne
  have hne0 : cs0 ≠ [] := by
    intro hnil
    rw [hnil] at hlen0
    simp at hlen0
    omega
  obtain ⟨out, hout, holen, hone⟩ :=
    kmeansLoop_some pixels k.toNat tol maxIterations.toNat cs0 hne0 hlen0
  refine ⟨out, ?_, holen, hone⟩
  unfold kmeans
  rw [hcs0]
  exact hout

/-! ### Nearest-centroid specification -/

theorem findNearestCentroidIndex_min (p : Pixel) (cs : List Pixel) (hne : cs ≠ [])
    (hlt : ∀ c ∈ cs, distance p c < maxFloat64) :
    (∀ i < cs.length,
      distance p (cs.getD (findNearestCentroidIndex p cs) zeroPixel) ≤
        distance p (cs.getD i zeroPixel)) ∧
    (∀ i < cs.length,
      distance p (cs.getD i zeroPixel) =
          distance p (cs.getD (findNearestCentroidIndex p cs) zeroPixel) →
        findNearestCentroidIndex p cs ≤ i) := by
  have hidx : findNearestCentroidIndex p cs =
      ((List.enumFrom 0 cs).foldl
        (fun acc ic => if distance p ic.2 < acc.1 then (distance p ic.2, ic.1) else acc)
        (maxFloat64, 0)).2 := rfl
  rcases nearestFold_spec p cs 0 maxFloat64 0 with ⟨_, h2⟩ | ⟨k, hk, h1, _, h3, h4⟩
  · obtain ⟨c, hc⟩ := List.exists_mem_of_ne_nil cs hne
    exact absurd (h2 c hc) (not_le.2 (hlt c hc))
  · have hj : findNearestCentroidIndex p cs = k := by rw [hidx, h1]; simp
    rw [hj]
    refine ⟨h3, ?_⟩
    intro i hi heq
    by_contra hcon
    have hik : i < k := by omega
    have := h4 i hik
    rw [heq] at this
    exact lt_irrefl _ this

theorem findNearestCentroid_eq (p : Pixel) (cs : List Pixel) (hne : cs ≠ []) :
    findNearestCentroid p cs =
      some (cs.getD (findNearestCentroidIndex p cs) zeroPixel) := by
  unfold findNearestCentroid
  have hlt := findNearestCentroidIndex_lt_length p cs hne
  rw [List.get?_eq_get hlt, List.get_eq_getElem, List.getD_eq_getElem cs zeroPixel hlt]

/-! ### Rendering characterisation -/

/-- The color the renderer paints on the block anchored at `(x, y)`: the
centroid nearest to the block's average color, converted to `color.RGBA`. -/
noncomputable def chosenColor (img : SrcImage) (region : Region) (blockSize : ℤ)
    (centroids : List Pixel) (x y : ℤ) : RGBA :=
  blockColorOf (centroids.getD
    (findNearestCentroidIndex (averagePixels (blockPixels img region blockSize x y)) centroids)
    zeroPixel)

theorem foldlM_eq_foldl_of_some {α β : Type} (g : β → α → Option β) (f : β → α → β)
    (hgf : ∀ b a, g b a = some (f b a)) :
    ∀ (l : List α) (b : β), l.foldlM g b = some (l.foldl f b) := by
  intro l
  induction l with
  | nil => intro b; rfl
  | cons a l ih =>
    intro b
    rw [List.foldlM_cons, hgf b a]
    show l.foldlM g (f b a) = _
    rw [ih (f b a), List.foldl_cons]

theorem renderBlocks_eq (img : SrcImage) (cv : Canvas) (region : Region)
    (blockSize : ℤ) (centroids : List Pixel) (hne : centroids ≠ []) :
    renderBlocks img cv region blockSize centroids =
      some ((stepRange region.Y (region.Y + region.Height) blockSize).foldl
        (fun cv1 y =>
          (stepRange region.X (region.X + region.Width) blockSize).foldl
            (fun cv2 x =>
              fillBlock cv2 x y blockSize (chosenColor img region blockSize centroids x y))
            cv1)
        cv) := by
  unfold renderBlocks
  apply foldlM_eq_foldl_of_some
  intro cv1 y
  apply foldlM_eq_foldl_of_some
  intro cv2 x
  rw [findNearestCentroid_eq _ _ hne]
  rfl

theorem anchor_eq (X0 B x0 : ℤ) (hB : 0 < B) (i : ℤ)
    (h1 : X0 + i * B ≤ x0) (h2 : x0 < X0 + i * B + B) :
    X0 + B * ((x0 - X0) / B) = X0 + i * B := by
  have hq := Int.ediv_add_emod (x0 - X0) B
  have hr0 : 0 ≤ (x0 - X0) % B := Int.emod_nonneg _ (by omega)
  have hrB : (x0 - X0) % B < B := Int.emod_lt_of_pos _ hB
  set q := (x0 - X0) / B with hqdef
  have hql : B * q ≤ x0 - X0 := by omega
  have hqu : x0 - X0 < B * q + B := by omega
  have hiq : i = q := by
    have h3 : B * q < B * (i + 1) := by nlinarith
    have h4 : B * i < B * (q + 1) := by nlinarith
    have h5 : q < i + 1 := lt_of_mul_lt_mul_left h3 (le_of_lt hB)
    have h6 : i < q + 1 := lt_of_mul_lt_mul_left h4 (le_of_lt hB)
    omega
  rw [hiq]
  ring

theorem exists_anchor_iff (X W B x0 : ℤ) (hB : 0 < B) :
    (∃ x ∈ stepRange X (X + W) B, x ≤ x0 ∧ x0 < x + B) ↔
      X ≤ x0 ∧ B * ((x0 - X) / B) < W := by
  constructor
  · rintro ⟨x, hmem, h1, h2⟩
    obtain ⟨i, rfl, hlt⟩ := (mem_stepRange x X (X + W) B hB).1 hmem
    have hanch : X + B * ((x0 - X) / B) = X + (i : ℤ) * B :=
      anchor_eq X B x0 hB i h1 (by omega)
    have hge : (0 : ℤ) ≤ (i : ℤ) * B :=
      mul_nonneg (Int.natCast_nonneg i) (le_of_lt hB)
    exact ⟨by omega, by omega⟩
  · rintro ⟨h1, h2⟩
    have hq := Int.ediv_add_emod (x0 - X) B
    have hr0 : 0 ≤ (x0 - X) % B := Int.emod_nonneg _ (by omega)
    have hrB : (x0 - X) % B < B := Int.emod_lt_of_pos _ hB
    have hq0 : 0 ≤ (x0 - X) / B := Int.ediv_nonneg (by omega) (le_of_lt hB)
    refine ⟨X + B * ((x0 - X) / B), ?_, by omega, by omega⟩
    rw [mem_stepRange _ _ _ _ hB]
    refine ⟨((x0 - X) / B).toNat, ?_, by omega⟩
    rw [Int.toNat_of_nonneg hq0]
    ring

theorem rowFold_rect (Lx : List ℤ) (y B : ℤ) (col : ℤ → RGBA) (cv1 : Canvas) :
    (Lx.foldl (fun cv2 x => fillBlock cv2 x y B (col x)) cv1).rect = cv1.rect := by
  induction Lx generalizing cv1 with
  | nil => rfl
  | cons a Lx ih => rw [List.foldl_cons, ih, fillBlock_rect]

theorem rowFold_At (X0 B : ℤ) (hB : 0 < B) (Lx : List ℤ)
    (hL : ∀ x ∈ Lx, ∃ i : ℕ, x = X0 + i * B) (y : ℤ) (col : ℤ → RGBA) (cv1 : Canvas)
    (x0 y0 : ℤ) :
    (Lx.foldl (fun cv2 x => fillBlock cv2 x y B (col x)) cv1).At x0 y0 =
      if (∃ x ∈ Lx, x ≤ x0 ∧ x0 < x + B) ∧ y ≤ y0 ∧ y0 < y + B ∧
          x0 < cv1.rect.maxX ∧ y0 < cv1.rect.maxY ∧ cv1.rect.Mem x0 y0
      then col (X0 + B * ((x0 - X0) / B)) else cv1.At x0 y0 := by
  induction Lx generalizing cv1 with
  | nil => simp
  | cons a Lx ih =>
    rw [List.foldl_cons, ih (fun x hx => hL x (List.mem_cons_of_mem a hx)),
      fillBlock_rect, fillBlock_At]
    by_cases htail : (∃ x ∈ Lx, x ≤ x0 ∧ x0 < x + B) ∧ y ≤ y0 ∧ y0 < y + B ∧
        x0 < cv1.rect.maxX ∧ y0 < cv1.rect.maxY ∧ cv1.rect.Mem x0 y0
    · rw [if_pos htail, if_pos]
      obtain ⟨⟨x, hx, hx1, hx2⟩, hrest⟩ := htail
      exact ⟨⟨x, List.mem_cons_of_mem a hx, hx1, hx2⟩, hrest⟩
    · rw [if_neg htail]
      by_cases hhead : a ≤ x0 ∧ x0 < a + B ∧ x0 < cv1.rect.maxX ∧
          y ≤ y0 ∧ y0 < y + B ∧ y0 < cv1.rect.maxY ∧ cv1.rect.Mem x0 y0
      · rw [if_pos hhead, if_pos]
        · obtain ⟨i, hi⟩ := hL a (List.mem_cons_self a Lx)
          have : X0 + B * ((x0 - X0) / B) = X0 + (i : ℤ) * B := by
            apply anchor_eq X0 B x0 hB i
            · rw [← hi]; exact hhead.1
            · rw [← hi]; omega
          rw [this, ← hi]
        · exact ⟨⟨a, List.mem_cons_self a Lx, hhead.1, hhead.2.1⟩, hhead.2.2.2.1,
            hhead.2.2.2.2.1, hhead.2.2.1, hhead.2.2.2.2.2⟩
      · rw [if_neg hhead, if_neg]
        rintro ⟨⟨x, hx, hx1, hx2⟩, h1, h2, h3, h4, h5⟩
        rcases List.mem_cons.1 hx with rfl | hx
        · exact hhead ⟨hx1, hx2, h3, h1, h2, h4, h5⟩
        · exact htail ⟨⟨x, hx, hx1, hx2⟩, h1, h2, h3, h4, h5⟩

theorem gridFold_rect (Ly Lx : List ℤ) (B : ℤ) (col : ℤ → ℤ → RGBA) (cv : Canvas) :
    ((Ly.foldl (fun cv1 y =>
        Lx.foldl (fun cv2 x => fillBlock cv2 x y B (col x y)) cv1) cv).rect) = cv.rect := by
  induction Ly generalizing cv with
  | nil => rfl
  | cons b Ly ih => rw [List.foldl_cons, ih, rowFold_rect]

theorem gridFold_At (X0 Y0 B : ℤ) (hB : 0 < B) (Ly Lx : List ℤ)
    (hLy : ∀ y ∈ Ly, ∃ j : ℕ, y = Y0 + j * B) (hLx : ∀ x ∈ Lx, ∃ i : ℕ, x = X0 + i * B)
    (col : ℤ → ℤ → RGBA) (cv : Canvas) (x0 y0 : ℤ) :
    ((Ly.foldl (fun cv1 y =>
        Lx.foldl (fun cv2 x => fillBlock cv2 x y B (col x y)) cv1) cv).At x0 y0) =
      if (∃ y ∈ Ly, y ≤ y0 ∧ y0 < y + B) ∧ (∃ x ∈ Lx, x ≤ x0 ∧ x0 < x + B) ∧
          x0 < cv.rect.maxX ∧ y0 < cv.rect.maxY ∧ cv.rect.Mem x0 y0
      then col (X0 + B * ((x0 - X0) / B)) (Y0 + B * ((y0 - Y0) / B)) else cv.At x0 y0 := by
  induction Ly generalizing cv with
  | nil => simp
  | cons b Ly ih =>
    rw [List.foldl_cons, ih (fun y hy => hLy y (List.mem_cons_of_mem b hy)),
      rowFold_rect, rowFold_At X0 B hB Lx hLx b (fun x => col x b) cv x0 y0]
    by_cases htail : (∃ y ∈ Ly, y ≤ y0 ∧ y0 < y + B) ∧ (∃ x ∈ Lx, x ≤ x0 ∧ x0 < x + B) ∧
        x0 < cv.rect.maxX ∧ y0 < cv.rect.maxY ∧ cv.rect.Mem x0 y0
    · rw [if_pos htail, if_pos]
      obtain ⟨⟨y, hy, hy1, hy2⟩, hrest⟩ := htail
      exact ⟨⟨y, List.mem_cons_of_mem b hy, hy1, hy2⟩, hrest⟩
    · rw [if_neg htail]
      by_cases hhead : (∃ x ∈ Lx, x ≤ x0 ∧ x0 < x + B) ∧ b ≤ y0 ∧ y0 < b + B ∧
          x0 < cv.rect.maxX ∧ y0 < cv.rect.maxY ∧ cv.rect.Mem x0 y0
      · rw [if_pos hhead, if_pos]
        · obtain ⟨j, hj⟩ := hLy b (List.mem_cons_self b Ly)
          have : Y0 + B * ((y0 - Y0) / B) = Y0 + (j : ℤ) * B := by
            apply anchor_eq Y0 B y0 hB j
            · rw [← hj]; exact hhead.2.1
            · rw [← hj]; omega
          rw [this, ← hj]
        · exact ⟨⟨b, List.mem_cons_self b Ly, hhead.2.1, hhead.2.2.1⟩, hhead.1,
            hhead.2.2.2⟩
      · rw [if_neg hhead, if_neg]
        rintro ⟨⟨y, hy, hy1, hy2⟩, hx, h3, h4, h5⟩
        rcases List.mem_cons.1 hy with rfl | hy
        · exact hhead ⟨hx, hy1, hy2, h3, h4, h5⟩
        · exact htail ⟨⟨y, hy, hy1, hy2⟩, hx, h3, h4, h5⟩

/-! ### Region and pipeline plumbing -/

theorem resolveRegion_inBounds (bounds : Rect) (requested : Option Region) :
    bounds.minX ≤ (resolveRegion bounds requested).X ∧
    bounds.minY ≤ (resolveRegion bounds requested).Y ∧
    (resolveRegion bounds requested).X + (resolveRegion bounds requested).Width ≤
      bounds.maxX ∧
    (resolveRegion bounds requested).Y + (resolveRegion bounds requested).Height ≤
      bounds.maxY := by
  unfold resolveRegion fullRegion Rect.Dx Rect.Dy
  set region := requested.getD
    { X := bounds.minX, Y := bounds.minY,
      Width := bounds.maxX - bounds.minX, Height := bounds.maxY - bounds.minY } with hr
  by_cases hviol : region.X < bounds.minX ∨ region.Y < bounds.minY ∨
      region.X + region.Width > bounds.maxX ∨ region.Y + region.Height > bounds.maxY
  · rw [if_pos hviol]
    refine ⟨le_refl _, le_refl _, by dsimp only; omega, by dsimp only; omega⟩
  · rw [if_neg hviol]
    push_neg at hviol
    exact ⟨by omega, by omega, by omega, by omega⟩

theorem imageToPixels_ne_nil (img : SrcImage) (region : Region)
    (hW : 0 < region.Width) (hH : 0 < region.Height) :
    imageToPixels img region ≠ [] := by
  apply List.ne_nil_of_mem (a := pixelOf (img.At region.X region.Y))
  unfold imageToPixels
  rw [List.mem_flatMap]
  refine ⟨region.Y, ?_, ?_⟩
  · rw [mem_stepRange_one]; omega
  · rw [List.mem_map]
    exact ⟨region.X, by rw [mem_stepRange_one]; omega, rfl⟩

theorem mapM_some_length (f : ℕ → Option Pixel) :
    ∀ (L : List ℕ) (out : List Pixel), L.mapM f = some out → out.length = L.length := by
  intro L
  induction L with
  | nil =>
    intro out h
    simp only [List.mapM_nil] at h
    cases h
    rfl
  | cons a L ih =>
    intro out h
    rw [List.mapM_cons] at h
    cases hfa : f a with
    | none => rw [hfa] at h; cases h
    | some b =>
      rw [hfa] at h
      cases hrest : L.mapM f with
      | none =>
        rw [hrest] at h
        cases h
      | some out2 =>
        rw [hrest] at h
        simp only [Option.bind_eq_bind, Option.bind_some] at h
        cases h
        simp [ih out2 hrest]

theorem initCentroids_length (pixels : List Pixel) (k : ℤ) (rnd : ℕ → ℕ)
    (cs : List Pixel) (h : initCentroids pixels k rnd = some cs) :
    cs.length = k.toNat := by
  unfold initCentroids at h
  by_cases hk : k < 0
  · rw [if_pos hk] at h; cases h
  · rw [if_neg hk] at h
    have := mapM_some_length _ _ _ h
    rw [this, List.length_range]

theorem kmeansLoop_length (pixels : List Pixel) (k : ℕ) (tol : ℝ) :
    ∀ (fuel : ℕ) (centroids out : List Pixel),
      kmeansLoop pixels k tol fuel centroids = some out → out.length = centroids.length := by
  intro fuel
  induction fuel with
  | zero =>
    intro centroids out h
    cases h
    rfl
  | succ fuel ih =>
    intro centroids out h
    unfold kmeansLoop at h
    cases hassign : assignClusters pixels k centroids with
    | none => rw [hassign] at h; cases h
    | some clusters =>
      rw [hassign] at h
      dsimp only at h
      by_cases hconv : (updateCentroids centroids clusters).2 < tol
      · rw [if_pos hconv] at h
        cases h
        exact updateCentroids_length centroids clusters
      · rw [if_neg hconv] at h
        rw [ih _ _ h, updateCentroids_length]

theorem kmeans_length (pixels : List Pixel) (k maxIterations : ℤ) (tol : ℝ)
    (rnd : ℕ → ℕ) (cs : List Pixel)
    (h : kmeans pixels k maxIterations tol rnd = some cs) : cs.length = k.toNat := by
  unfold kmeans at h
  cases hinit : initCentroids pixels k rnd with
  | none => rw [hinit] at h; cases h
  | some cs0 =>
    rw [hinit] at h
    rw [kmeansLoop_length _ _ _ _ _ _ h, initCentroids_length _ _ _ _ hinit]

theorem createMosaic_destruct (img : SrcImage) (opts : MosaicOptions) (rnd : ℕ → ℕ)
    (out : Canvas) (hout : CreateMosaic img (some opts) rnd = some out) :
    ∃ centroids,
      kmeans (imageToPixels img (resolveRegion img.bounds opts.Region)) opts.K
        opts.Iterations opts.Tolerance rnd = some centroids ∧
      renderBlocks img (newCanvasCopy img) (resolveRegion img.bounds opts.Region)
        opts.BlockSize centroids = some out := by
  unfold CreateMosaic at hout
  dsimp only [Option.getD_some] at hout
  cases hk : kmeans (imageToPixels img (resolveRegion img.bounds opts.Region)) opts.K
      opts.Iterations opts.Tolerance rnd with
  | none => rw [hk] at hout; cases hout
  | some centroids =>
    rw [hk] at hout
    exact ⟨centroids, rfl, hout⟩

theorem renderBlocks_empty_centroids (img : SrcImage) (cv : Canvas) (region : Region)
    (blockSize : ℤ) (out : Canvas)
    (hout : renderBlocks img cv region blockSize [] = some out) : out = cv := by
  unfold renderBlocks at hout
  cases hY : stepRange region.Y (region.Y + region.Height) blockSize with
  | nil =>
    rw [hY] at hout
    cases hout
    rfl
  | cons y ys =>
    cases hX : stepRange region.X (region.X + region.Width) blockSize with
    | nil =>
      rw [hY, hX] at hout
      have hinner : ∀ (L : List ℤ) (c : Canvas),
          L.foldlM (fun cv1 (_ : ℤ) => (([] : List ℤ).foldlM (fun cv2 x =>
            match findNearestCentroid (averagePixels (blockPixels img region blockSize x 0))
                ([] : List Pixel) with
            | none => none
            | some avgColor =>
              some (fillBlock cv2 x 0 blockSize (blockColorOf avgColor))) cv1)) c = some c := by
        intro L
        induction L with
        | nil => intro c; rfl
        | cons a L ih => intro c; rw [List.foldlM_cons]; exact ih c
      have : ∀ (L : List ℤ) (c : Canvas),
          L.foldlM (fun cv1 y => (([] : List ℤ).foldlM (fun cv2 x =>
            match findNearestCentroid (averagePixels (blockPixels img region blockSize x y))
                ([] : List Pixel) with
            | none => none
            | some avgColor =>
              some (fillBlock cv2 x y blockSize (blockColorOf avgColor))) cv1)) c = some c := by
        intro L
        induction L with
        | nil => intro c; rfl
        | cons a L ih => intro c; rw [List.foldlM_cons]; exact ih c
      rw [this] at hout
      cases hout
      rfl
    | cons x xs =>
      rw [hY, hX] at hout
      rw [List.foldlM_cons, List.foldlM_cons] at hout
      have hnone : findNearestCentroid
          (averagePixels (blockPixels img region blockSize x y)) ([] : List Pixel) = none := by
        unfold findNearestCentroid
        exact List.get?_eq_none.2 (by simp)
      rw [hnone] at hout
      cases hout

theorem renderBlocks_centroids_ne_nil (img : SrcImage) (cv : Canvas) (region : Region)
    (B : ℤ) (cs : List Pixel) (out : Canvas) (hB : 0 < B)
    (hW : 0 < region.Width) (hH : 0 < region.Height)
    (hout : renderBlocks img cv region B cs = some out) : cs ≠ [] := by
  rintro rfl
  unfold renderBlocks at hout
  rw [stepRange_cons region.Y (region.Y + region.Height) B hB (by omega),
    stepRange_cons region.X (region.X + region.Width) B hB (by omega),
    List.foldlM_cons, List.foldlM_cons] at hout
  have hnone : findNearestCentroid
      (averagePixels (blockPixels img region B region.X region.Y)) ([] : List Pixel) =
      none := by
    unfold findNearestCentroid
    exact List.get?_eq_none.2 (by simp)
  rw [hnone] at hout
  cases hout

theorem renderBlocks_char (img : SrcImage) (cv : Canvas) (region : Region) (B : ℤ)
    (cs : List Pixel) (out : Canvas) (hB : 0 < B) (hne : cs ≠ [])
    (hout : renderBlocks img cv region B cs = some out) :
    out.rect = cv.rect ∧
    ∀ x0 y0 : ℤ, out.At x0 y0 =
      if region.X ≤ x0 ∧ B * ((x0 - region.X) / B) < region.Width ∧
          region.Y ≤ y0 ∧ B * ((y0 - region.Y) / B) < region.Height ∧
          cv.rect.Mem x0 y0
      then chosenColor img region B cs (region.X + B * ((x0 - region.X) / B))
        (region.Y + B * ((y0 - region.Y) / B))
      else cv.At x0 y0 := by
  rw [renderBlocks_eq img cv region B cs hne] at hout
  have hgx : ∀ x ∈ stepRange region.X (region.X + region.Width) B,
      ∃ i : ℕ, x = region.X + i * B := by
    intro x hx
    obtain ⟨i, rfl, _⟩ := (mem_stepRange x _ _ _ hB).1 hx
    exact ⟨i, rfl⟩
  have hgy : ∀ y ∈ stepRange region.Y (region.Y + region.Height) B,
      ∃ j : ℕ, y = region.Y + j * B := by
    intro y hy
    obtain ⟨j, rfl, _⟩ := (mem_stepRange y _ _ _ hB).1 hy
    exact ⟨j, rfl⟩
  cases hout
  constructor
  · exact gridFold_rect _ _ _ _ _
  · intro x0 y0
    rw [gridFold_At region.X region.Y B hB _ _ hgy hgx
      (fun x y => chosenColor img region B cs x y) cv x0 y0]
    congr 1
    rw [eq_iff_iff]
    have hex : (∃ x ∈ stepRange region.X (region.X + region.Width) B,
        x ≤ x0 ∧ x0 < x + B) ↔ region.X ≤ x0 ∧ B * ((x0 - region.X) / B) < region.Width :=
      exists_anchor_iff _ _ _ _ hB
    have hey : (∃ y ∈ stepRange region.Y (region.Y + region.Height) B,
        y ≤ y0 ∧ y0 < y + B) ↔ region.Y ≤ y0 ∧ B * ((y0 - region.Y) / B) < region.Height :=
      exists_anchor_iff _ _ _ _ hB
    unfold Rect.Mem
    rw [hex, hey]
    constructor
    · rintro ⟨hy, hx, _, _, h5⟩
      exact ⟨hx.1, hx.2, hy.1, hy.2, h5⟩
    · rintro ⟨h1, h2, h3, h4, h5⟩
      exact ⟨⟨h3, h4⟩, ⟨h1, h2⟩, h5.2.1, h5.2.2.2, h5⟩

/-! ### Concrete evaluation helpers -/

/-- Membership of a coordinate in a Region (the spec's notion of a pixel
lying inside the resolved region). -/
def Region.Contains (r : Region) (x y : ℤ) : Prop :=
  r.X ≤ x ∧ x < r.X + r.Width ∧ r.Y ≤ y ∧ y < r.Y + r.Height

instance (r : Region) (x y : ℤ) : Decidable (r.Contains x y) := by
  unfold Region.Contains; infer_instance

theorem findNearestCentroidIndex_singleton (p c : Pixel) :
    findNearestCentroidIndex p [c] = 0 := by
  unfold findNearestCentroidIndex
  rw [show List.enum [c] = [(0, c)] from rfl, List.foldl_cons, List.foldl_nil]
  split <;> rfl

theorem stepRange_zero_one : stepRange 0 1 1 = [0] := by
  rw [stepRange_cons 0 1 1 one_pos one_pos]
  norm_num
  exact stepRange_nil _ _ _ (by norm_num)

theorem assignClusters_singleton (p c : Pixel) :
    assignClusters [p] 1 [c] = some [[p]] := by
  unfold assignClusters
  rw [List.foldlM_cons]
  simp only [findNearestCentroidIndex_singleton]
  rfl

theorem updateCentroids_fixed (c : Pixel) : updateCentroids [c] [[c]] = ([c], 0) := by
  unfold updateCentroids
  rw [show List.range (List.length [c]) = [0] from rfl]
  simp only [List.map_cons, List.map_nil, List.foldl_cons, List.foldl_nil,
    List.getD_cons_zero, List.length_cons, List.length_nil]
  rw [if_pos (by norm_num), if_pos (by norm_num), averagePixels_singleton, distance_self]
  rw [if_neg (by norm_num)]

theorem kmeansLoop_fixed (c : Pixel) (tol : ℝ) (htol : 0 < tol) (fuel : ℕ) :
    kmeansLoop [c] 1 tol (fuel + 1) [c] = some [c] := by
  unfold kmeansLoop
  rw [assignClusters_singleton c c]
  dsimp only
  rw [updateCentroids_fixed c]
  exact if_pos htol

theorem initCentroids_singleton (c : Pixel) (rnd : ℕ → ℕ) :
    initCentroids [c] 1 rnd = some [c] := by
  unfold initCentroids
  rw [if_neg (by norm_num), show ((1 : ℤ).toNat) = 1 from rfl,
    show List.range 1 = [0] from rfl, List.mapM_cons]
  simp only [List.length_cons, List.length_nil]
  rw [if_neg (by norm_num)]
  rw [show rnd 0 % 1 = 0 from Nat.mod_one _, List.get?_eq_get (by norm_num)]
  rfl

theorem kmeans_singleton (c : Pixel) (tol : ℝ) (htol : 0 < tol) (rnd : ℕ → ℕ)
    (iters : ℤ) (hiters : 0 < iters) :
    kmeans [c] 1 iters tol rnd = some [c] := by
  unfold kmeans
  rw [initCentroids_singleton c rnd]
  have : iters.toNat = (iters.toNat - 1) + 1 := by omega
  rw [show (1 : ℤ).toNat = 1 from rfl, this]
  exact kmeansLoop_fixed c tol htol _

/-! ### The concrete input for the region-spill behaviour -/

/-- A 2×1 source image: pixel (0,0) is pure red, pixel (1,0) pure blue. -/
def c1img : SrcImage :=
  { bounds := { minX := 0, minY := 0, maxX := 2, maxY := 1 },
    At := fun x _ => if x = 0 then { r := 65535, g := 0, b := 0, a := 65535 }
      else { r := 0, g := 0, b := 65535, a := 65535 } }

/-- Options asking for a mosaic of the 1×1 region at the origin with
blocks of size 2 (larger than the region). -/
def c1opts : MosaicOptions :=
  { K := 1, BlockSize := 2, Iterations := 1, Tolerance := 0.001,
    Region := some { X := 0, Y := 0, Width := 1, Height := 1 } }

/-- The sampled red pixel of `c1img`. -/
noncomputable def c1red : Pixel := pixelOf { r := 65535, g := 0, b := 0, a := 65535 }

theorem c1_resolve :
    resolveRegion c1img.bounds c1opts.Region =
      { X := 0, Y := 0, Width := 1, Height := 1 } := by
  decide

theorem c1_pixels :
    imageToPixels c1img { X := 0, Y := 0, Width := 1, Height := 1 } = [c1red] := by
  unfold imageToPixels
  norm_num
  rw [stepRange_zero_one]
  rfl

theorem c1_create :
    CreateMosaic c1img (some c1opts) (fun _ => 0) =
      renderBlocks c1img (newCanvasCopy c1img)
        { X := 0, Y := 0, Width := 1, Height := 1 } 2 [c1red] := by
  unfold CreateMosaic
  simp only [Option.getD_some]
  rw [c1_resolve, c1_pixels,
    show c1opts.K = 1 from rfl, show c1opts.Iterations = 1 from rfl,
    show c1opts.Tolerance = (0.001 : ℝ) from rfl,
    kmeans_singleton c1red (0.001 : ℝ) (by norm_num) (fun _ => 0) 1 one_pos]
  rfl

theorem c1_blockColor : blockColorOf c1red = { r := 255, g := 0, b := 0, a := 255 } := by
  unfold blockColorOf chan8 c1red pixelOf
  dsimp only
  norm_num
  rfl

/-- C1: the claim that block painting never writes outside the resolved
region fails on the code: on the 2×1 image `c1img` with the in-bounds 1×1
region at the origin and BlockSize 2, `CreateMosaic` paints the
out-of-region pixel (1, 0) with the block color (255,0,0,255), while the
copied source pixel there is (0,0,255,255); `fillBlock` clips only at the
image edge, not at the region edge. -/
theorem C1_block_paint_escapes_region :
    ∃ out, CreateMosaic c1img (some c1opts) (fun _ => 0) = some out ∧
      ¬(resolveRegion c1img.bounds c1opts.Region).Contains 1 0 ∧
      c1img.bounds.Mem 1 0 ∧
      out.At 1 0 = { r := 255, g := 0, b := 0, a := 255 } ∧
      (newCanvasCopy c1img).At 1 0 = { r := 0, g := 0, b := 255, a := 255 } ∧
      out.At 1 0 ≠ (newCanvasCopy c1img).At 1 0 := by
  have hne : ([c1red] : List Pixel) ≠ [] := by simp
  have hB : (0 : ℤ) < 2 := by norm_num
  obtain ⟨out, hout⟩ : ∃ out,
      renderBlocks c1img (newCanvasCopy c1img)
        { X := 0, Y := 0, Width := 1, Height := 1 } 2 [c1red] = some out :=
    ⟨_, renderBlocks_eq c1img (newCanvasCopy c1img)
      { X := 0, Y := 0, Width := 1, Height := 1 } 2 [c1red] hne⟩
  have hchar := renderBlocks_char c1img (newCanvasCopy c1img)
    { X := 0, Y := 0, Width := 1, Height := 1 } 2 [c1red] out hB hne hout
  have hCopy : (newCanvasCopy c1img).At 1 0 = { r := 0, g := 0, b := 255, a := 255 } := by
    decide
  have hAt : out.At 1 0 = { r := 255, g := 0, b := 0, a := 255 } := by
    rw [hchar.2 1 0, if_pos (by decide)]
    dsimp only
    rw [show ((0 : ℤ) + 2 * ((1 - 0) / 2)) = 0 from by decide,
      show ((0 : ℤ) + 2 * ((0 - 0) / 2)) = 0 from by decide]
    unfold chosenColor
    rw [findNearestCentroidIndex_singleton, List.getD_cons_zero]
    exact c1_blockColor
  refine ⟨out, by rw [c1_create]; exact hout, by decide, by decide, hAt, hCopy, ?_⟩
  rw [hAt, hCopy]
  decide

theorem resolveRegion_none (bounds : Rect) : resolveRegion bounds none = fullRegion bounds := by
  unfold resolveRegion fullRegion Rect.Dx Rect.Dy
  rw [Option.getD_none, if_neg]
  dsimp only
  omega

theorem resolveRegion_cases (bounds : Rect) (ro : Option Region) :
    resolveRegion bounds ro = fullRegion bounds ∨
      ∃ r, ro = some r ∧ resolveRegion bounds ro = r := by
  cases ro with
  | none => left; exact resolveRegion_none bounds
  | some r =>
    unfold resolveRegion
    rw [Option.getD_some]
    by_cases hviol : r.X < bounds.minX ∨ r.Y < bounds.minY ∨
        r.X + r.Width > bounds.maxX ∨ r.Y + r.Height > bounds.maxY
    · left; rw [if_pos hviol]
    · right; exact ⟨r, rfl, by rw [if_neg hviol]⟩

/-- C4: a requested region that violates any of the four bound checks is
silently replaced by the full-image region, and `CreateMosaic` behaves
exactly as if no region had been requested. -/
theorem C4_invalid_region_falls_back (img : SrcImage) (opts : MosaicOptions) (r : Region)
    (hR : opts.Region = some r)
    (hviol : r.X < img.bounds.minX ∨ r.Y < img.bounds.minY ∨
      r.X + r.Width > img.bounds.maxX ∨ r.Y + r.Height > img.bounds.maxY) :
    resolveRegion img.bounds opts.Region = fullRegion img.bounds ∧
    ∀ rnd : ℕ → ℕ, CreateMosaic img (some opts) rnd =
      CreateMosaic img (some { opts with Region := none }) rnd := by
  have hres : resolveRegion img.bounds opts.Region = fullRegion img.bounds := by
    rw [hR]
    unfold resolveRegion
    rw [Option.getD_some, if_pos hviol]
  refine ⟨hres, ?_⟩
  intro rnd
  unfold CreateMosaic
  simp only [Option.getD_some]
  rw [hres, resolveRegion_none]

/-- A 100×100 monochrome source image for the fallback example. -/
def c4img : SrcImage :=
  { bounds := { minX := 0, minY := 0, maxX := 100, maxY := 100 },
    At := fun _ _ => { r := 65535, g := 0, b := 0, a := 65535 } }

/-- Default options with the out-of-bounds region request {90, 0, 20, 20}. -/
def c4opts : MosaicOptions :=
  { K := 8, BlockSize := 10, Iterations := 50, Tolerance := 0.001,
    Region := some { X := 90, Y := 0, Width := 20, Height := 20 } }

/-- C4 witness: on a 100×100 image the request {x:90, y:0, w:20, h:20}
resolves to the full-image region. -/
theorem C4_fallback_witness :
    resolveRegion c4img.bounds c4opts.Region = fullRegion c4img.bounds ∧
    ∀ rnd : ℕ → ℕ, CreateMosaic c4img (some c4opts) rnd =
      CreateMosaic c4img (some { c4opts with Region := none }) rnd :=
  C4_invalid_region_falls_back c4img c4opts
    { X := 90, Y := 0, Width := 20, Height := 20 } rfl (by decide)

/-- C3 counterexample: the in-bounds zero-size request {0, 0, 0, 5} on a
100×100 image survives resolution unchanged, so the resolved region does
not have strictly positive width. -/
theorem C3_zero_width_resolved :
    resolveRegion c4img.bounds (some { X := 0, Y := 0, Width := 0, Height := 5 }) =
      { X := 0, Y := 0, Width := 0, Height := 5 } ∧
    ¬(0 < (resolveRegion c4img.bounds
      (some { X := 0, Y := 0, Width := 0, Height := 5 })).Width) := by
  decide

/-- C3 (amended): the resolved region always lies within the image bounds;
it additionally has strictly positive width and height provided the image
does and every requested region does (a zero- or negative-size in-bounds
request is kept unchanged by resolution, so positivity is not
unconditional). -/
theorem C3_resolved_region_invariant (bounds : Rect) (ro : Option Region)
    (hDx : 0 < bounds.Dx) (hDy : 0 < bounds.Dy)
    (hpos : ∀ r : Region, ro = some r → 0 < r.Width ∧ 0 < r.Height) :
    bounds.minX ≤ (resolveRegion bounds ro).X ∧
    bounds.minY ≤ (resolveRegion bounds ro).Y ∧
    (resolveRegion bounds ro).X + (resolveRegion bounds ro).Width ≤ bounds.maxX ∧
    (resolveRegion bounds ro).Y + (resolveRegion bounds ro).Height ≤ bounds.maxY ∧
    0 < (resolveRegion bounds ro).Width ∧ 0 < (resolveRegion bounds ro).Height := by
  obtain ⟨h1, h2, h3, h4⟩ := resolveRegion_inBounds bounds ro
  refine ⟨h1, h2, h3, h4, ?_⟩
  rcases resolveRegion_cases bounds ro with h | ⟨r, hro, h⟩
  · rw [h]
    unfold fullRegion Rect.Dx Rect.Dy
    unfold Rect.Dx at hDx
    unfold Rect.Dy at hDy
    dsimp only
    exact ⟨hDx, hDy⟩
  · rw [h]
    exact hpos r hro

/-- C3 witness: a valid positive request on the 100×100 image resolves to
an in-bounds region with positive dimensions. -/
theorem C3_invariant_witness :
    c4img.bounds.minX ≤ (resolveRegion c4img.bounds
        (some { X := 10, Y := 10, Width := 5, Height := 5 })).X ∧
    c4img.bounds.minY ≤ (resolveRegion c4img.bounds
        (some { X := 10, Y := 10, Width := 5, Height := 5 })).Y ∧
    (resolveRegion c4img.bounds (some { X := 10, Y := 10, Width := 5, Height := 5 })).X +
        (resolveRegion c4img.bounds
          (some { X := 10, Y := 10, Width := 5, Height := 5 })).Width ≤
      c4img.bounds.maxX ∧
    (resolveRegion c4img.bounds (some { X := 10, Y := 10, Width := 5, Height := 5 })).Y +
        (resolveRegion c4img.bounds
          (some { X := 10, Y := 10, Width := 5, Height := 5 })).Height ≤
      c4img.bounds.maxY ∧
    0 < (resolveRegion c4img.bounds
        (some { X := 10, Y := 10, Width := 5, Height := 5 })).Width ∧
    0 < (resolveRegion c4img.bounds
        (some { X := 10, Y := 10, Width := 5, Height := 5 })).Height :=
  C3_resolved_region_invariant c4img.bounds
    (some { X := 10, Y := 10, Width := 5, Height := 5 }) (by decide) (by decide)
    (fun r hr => by cases hr; exact ⟨by norm_num, by norm_num⟩)

/-- C10: a `nil` options pointer behaves exactly as `DefaultOptions()`,
whose field values are K = 8, BlockSize = 10, Iterations = 50,
Tolerance = 0.001 and no region (whole image). -/
theorem C10_nil_options_default (img : SrcImage) (rnd : ℕ → ℕ) :
    CreateMosaic img none rnd = CreateMosaic img (some DefaultOptions) rnd ∧
    DefaultOptions.K = 8 ∧ DefaultOptions.BlockSize = 10 ∧
    DefaultOptions.Iterations = 50 ∧ DefaultOptions.Tolerance = 0.001 ∧
    DefaultOptions.Region = none :=
  ⟨rfl, rfl, rfl, rfl, rfl, rfl⟩

/-- C7: the average of a single pixel is that pixel, and the average is
invariant under permutation of the input list. -/
theorem C7_average_props (p : Pixel) (l l2 : List Pixel) (h : l.Perm l2) :
    averagePixels [p] = p ∧ averagePixels l = averagePixels l2 :=
  ⟨averagePixels_singleton p, averagePixels_perm l l2 h⟩

/-- C7 witness: instantiated at a two-element list and its transposition. -/
theorem C7_average_witness :
    averagePixels [zeroPixel] = zeroPixel ∧
    averagePixels [zeroPixel, { R := 1, G := 0, B := 0 }] =
      averagePixels [{ R := 1, G := 0, B := 0 }, zeroPixel] :=
  C7_average_props zeroPixel _ _ (List.Perm.swap _ _ _)

/-! ### Determinism under an agreed random index sequence -/

theorem mapM_congr (f g : ℕ → Option Pixel) :
    ∀ L : List ℕ, (∀ i ∈ L, f i = g i) → L.mapM f = L.mapM g := by
  intro L
  induction L with
  | nil => intro _; rfl
  | cons a L ih =>
    intro h
    rw [List.mapM_cons, List.mapM_cons, h a (List.mem_cons_self a L),
      ih fun i hi => h i (List.mem_cons_of_mem a hi)]

theorem initCentroids_congr (pixels : List Pixel) (k : ℤ) (rnd1 rnd2 : ℕ → ℕ)
    (h : ∀ i < k.toNat, rnd1 i = rnd2 i) :
    initCentroids pixels k rnd1 = initCentroids pixels k rnd2 := by
  unfold initCentroids
  by_cases hk : k < 0
  · rw [if_pos hk, if_pos hk]
  · rw [if_neg hk, if_neg hk]
    apply mapM_congr
    intro i hi
    rw [h i (List.mem_range.1 hi)]

theorem kmeans_congr (pixels : List Pixel) (k maxIterations : ℤ) (tol : ℝ)
    (rnd1 rnd2 : ℕ → ℕ) (h : ∀ i < k.toNat, rnd1 i = rnd2 i) :
    kmeans pixels k maxIterations tol rnd1 = kmeans pixels k maxIterations tol rnd2 := by
  unfold kmeans
  rw [initCentroids_congr pixels k rnd1 rnd2 h]

/-- C9: the random source enters the pipeline only through the indices
drawn during centroid initialisation; two runs whose index sequences agree
on the K draws yield the same palette and the same output image. -/
theorem C9_same_seed_same_output (img : SrcImage) (opts0 : Option MosaicOptions)
    (rnd1 rnd2 : ℕ → ℕ)
    (h : ∀ i < (opts0.getD DefaultOptions).K.toNat, rnd1 i = rnd2 i) :
    kmeans (imageToPixels img
        (resolveRegion img.bounds (opts0.getD DefaultOptions).Region))
      (opts0.getD DefaultOptions).K (opts0.getD DefaultOptions).Iterations
      (opts0.getD DefaultOptions).Tolerance rnd1 =
    kmeans (imageToPixels img
        (resolveRegion img.bounds (opts0.getD DefaultOptions).Region))
      (opts0.getD DefaultOptions).K (opts0.getD DefaultOptions).Iterations
      (opts0.getD DefaultOptions).Tolerance rnd2 ∧
    CreateMosaic img opts0 rnd1 = CreateMosaic img opts0 rnd2 := by
  have hkm := kmeans_congr (imageToPixels img
      (resolveRegion img.bounds (opts0.getD DefaultOptions).Region))
    (opts0.getD DefaultOptions).K (opts0.getD DefaultOptions).Iterations
    (opts0.getD DefaultOptions).Tolerance rnd1 rnd2 h
  refine ⟨hkm, ?_⟩
  unfold CreateMosaic
  dsimp only
  rw [hkm]

/-- C9 witness: two concretely different index sequences agreeing on the
first 8 draws give identical results under the default options. -/
theorem C9_seed_witness :
    kmeans (imageToPixels c1img
        (resolveRegion c1img.bounds ((none : Option MosaicOptions).getD
          DefaultOptions).Region))
      ((none : Option MosaicOptions).getD DefaultOptions).K
      ((none : Option MosaicOptions).getD DefaultOptions).Iterations
      ((none : Option MosaicOptions).getD DefaultOptions).Tolerance (fun _ => 0) =
    kmeans (imageToPixels c1img
        (resolveRegion c1img.bounds ((none : Option MosaicOptions).getD
          DefaultOptions).Region))
      ((none : Option MosaicOptions).getD DefaultOptions).K
      ((none : Option MosaicOptions).getD DefaultOptions).Iterations
      ((none : Option MosaicOptions).getD DefaultOptions).Tolerance
      (fun i => if i < 8 then 0 else 1) ∧
    CreateMosaic c1img none (fun _ => 0) =
      CreateMosaic c1img none (fun i => if i < 8 then 0 else 1) :=
  C9_same_seed_same_output c1img none (fun _ => 0) (fun i => if i < 8 then 0 else 1)
    (by decide)

/-- C6: `findNearestCentroid` returns the palette entry of minimal
Euclidean distance, ties broken toward the lowest index, for channel-valid
colors (the data model's `[0,1]` invariant keeps every distance below the
`math.MaxFloat64` sentinel the fold starts from); the quantizer's
assignment step applies `findNearestCentroidIndex` itself, hence the same
rule. -/
theorem C6_nearest_palette (p : Pixel) (cs : List Pixel) (hne : cs ≠ [])
    (hp : p.Valid) (hcs : ∀ c ∈ cs, c.Valid) :
    findNearestCentroidIndex p cs < cs.length ∧
    (∀ i < cs.length,
      distance p (cs.getD (findNearestCentroidIndex p cs) zeroPixel) ≤
        distance p (cs.getD i zeroPixel)) ∧
    (∀ i < cs.length,
      distance p (cs.getD i zeroPixel) =
          distance p (cs.getD (findNearestCentroidIndex p cs) zeroPixel) →
        findNearestCentroidIndex p cs ≤ i) ∧
    findNearestCentroid p cs =
      some (cs.getD (findNearestCentroidIndex p cs) zeroPixel) := by
  have hlt : ∀ c ∈ cs, distance p c < maxFloat64 :=
    fun c hc => distance_lt_maxFloat64 p c hp (hcs c hc)
  obtain ⟨hmin, htie⟩ := findNearestCentroidIndex_min p cs hne hlt
  exact ⟨findNearestCentroidIndex_lt_length p cs hne, hmin, htie,
    findNearestCentroid_eq p cs hne⟩

/-- C6 witness: the palette [(1,0,0), (0,0,0)] and the query (0,0,0). -/
theorem C6_nearest_witness :
    findNearestCentroidIndex zeroPixel [{ R := 1, G := 0, B := 0 }, zeroPixel] <
      ([{ R := 1, G := 0, B := 0 }, zeroPixel] : List Pixel).length ∧
    (∀ i < ([{ R := 1, G := 0, B := 0 }, zeroPixel] : List Pixel).length,
      distance zeroPixel (([{ R := 1, G := 0, B := 0 }, zeroPixel] : List Pixel).getD
          (findNearestCentroidIndex zeroPixel [{ R := 1, G := 0, B := 0 }, zeroPixel])
          zeroPixel) ≤
        distance zeroPixel
          (([{ R := 1, G := 0, B := 0 }, zeroPixel] : List Pixel).getD i zeroPixel)) ∧
    (∀ i < ([{ R := 1, G := 0, B := 0 }, zeroPixel] : List Pixel).length,
      distance zeroPixel
          (([{ R := 1, G := 0, B := 0 }, zeroPixel] : List Pixel).getD i zeroPixel) =
          distance zeroPixel (([{ R := 1, G := 0, B := 0 }, zeroPixel] : List Pixel).getD
            (findNearestCentroidIndex zeroPixel [{ R := 1, G := 0, B := 0 }, zeroPixel])
            zeroPixel) →
        findNearestCentroidIndex zeroPixel [{ R := 1, G := 0, B := 0 }, zeroPixel] ≤ i) ∧
    findNearestCentroid zeroPixel [{ R := 1, G := 0, B := 0 }, zeroPixel] =
      some (([{ R := 1, G := 0, B := 0 }, zeroPixel] : List Pixel).getD
        (findNearestCentroidIndex zeroPixel [{ R := 1, G := 0, B := 0 }, zeroPixel])
        zeroPixel) :=
  C6_nearest_palette zeroPixel [{ R := 1, G := 0, B := 0 }, zeroPixel] (by simp)
    (by unfold Pixel.Valid zeroPixel; norm_num)
    (by
      intro c hc
      rcases List.mem_cons.1 hc with rfl | hc
      · unfold Pixel.Valid; norm_num
      · rcases List.mem_cons.1 hc with rfl | hc
        · unfold Pixel.Valid zeroPixel; norm_num
        · cases hc)

/-- C5: one refinement round replaces the centroid of every non-empty
cluster by the arithmetic mean of its members and keeps the centroid of
every empty cluster; the tracked `maxDiff` is exactly the maximum
per-centroid displacement (it bounds every displacement and is zero or
attained); the loop does nothing with zero remaining rounds (so `kmeans`
runs at most `maxIterations` rounds, its fuel), and with rounds remaining
it returns the updated centroids exactly when `maxDiff < tolerance` and
otherwise continues with them and one round less. -/
theorem C5_kmeans_round (pixels centroids : List Pixel) (clusters : List (List Pixel))
    (k : ℕ) (tol : ℝ) (fuel : ℕ)
    (hassign : assignClusters pixels k centroids = some clusters) :
    (∀ i < centroids.length,
      (updateCentroids centroids clusters).1.getD i zeroPixel =
        if 0 < (clusters.getD i []).length then averagePixels (clusters.getD i [])
        else centroids.getD i zeroPixel) ∧
    (∀ i < centroids.length, 0 < (clusters.getD i []).length →
      (updateCentroids centroids clusters).1.getD i zeroPixel =
        { R := ((clusters.getD i []).map Pixel.R).sum / (((clusters.getD i []).length : ℝ)),
          G := ((clusters.getD i []).map Pixel.G).sum / (((clusters.getD i []).length : ℝ)),
          B := ((clusters.getD i []).map Pixel.B).sum /
            (((clusters.getD i []).length : ℝ)) }) ∧
    (∀ i < centroids.length,
      distance (centroids.getD i zeroPixel)
          ((updateCentroids centroids clusters).1.getD i zeroPixel) ≤
        (updateCentroids centroids clusters).2) ∧
    ((updateCentroids centroids clusters).2 = 0 ∨
      ∃ i < centroids.length,
        distance (centroids.getD i zeroPixel)
            ((updateCentroids centroids clusters).1.getD i zeroPixel) =
          (updateCentroids centroids clusters).2) ∧
    (kmeansLoop pixels k tol 0 centroids = some centroids) ∧
    ((updateCentroids centroids clusters).2 < tol →
      kmeansLoop pixels k tol (fuel + 1) centroids =
        some (updateCentroids centroids clusters).1) ∧
    (¬(updateCentroids centroids clusters).2 < tol →
      kmeansLoop pixels k tol (fuel + 1) centroids =
        kmeansLoop pixels k tol fuel (updateCentroids centroids clusters).1) := by
  refine ⟨?_, ?_, ?_, updateCentroids_maxDiff_attained centroids clusters, rfl, ?_, ?_⟩
  · intro i hi
    exact updateCentroids_getD centroids clusters i hi
  · intro i hi hlen
    rw [updateCentroids_getD centroids clusters i hi, if_pos hlen,
      averagePixels_mean _ (by intro hnil; rw [hnil] at hlen; simp at hlen)]
  · intro i hi
    exact updateCentroids_maxDiff_bound centroids clusters i hi
  · intro hconv
    unfold kmeansLoop
    rw [hassign]
    dsimp only
    rw [if_pos hconv]
  · intro hconv
    have hstep : kmeansLoop pixels k tol (fuel + 1) centroids =
        match assignClusters pixels k centroids with
        | none => none
        | some clusters2 =>
          if (updateCentroids centroids clusters2).2 < tol then
            some (updateCentroids centroids clusters2).1
          else kmeansLoop pixels k tol fuel (updateCentroids centroids clusters2).1 := rfl
    rw [hstep, hassign]
    dsimp only
    rw [if_neg hconv]

/-- C5 witness: one round on the single pixel (0,0,0) with one centroid. -/
theorem C5_round_witness :
    (∀ i < ([zeroPixel] : List Pixel).length,
      (updateCentroids [zeroPixel] [[zeroPixel]]).1.getD i zeroPixel =
        if 0 < (([[zeroPixel]] : List (List Pixel)).getD i []).length then
          averagePixels (([[zeroPixel]] : List (List Pixel)).getD i [])
        else ([zeroPixel] : List Pixel).getD i zeroPixel) ∧
    (∀ i < ([zeroPixel] : List Pixel).length,
      0 < (([[zeroPixel]] : List (List Pixel)).getD i []).length →
      (updateCentroids [zeroPixel] [[zeroPixel]]).1.getD i zeroPixel =
        { R := ((([[zeroPixel]] : List (List Pixel)).getD i []).map Pixel.R).sum /
            (((([[zeroPixel]] : List (List Pixel)).getD i []).length : ℝ)),
          G := ((([[zeroPixel]] : List (List Pixel)).getD i []).map Pixel.G).sum /
            (((([[zeroPixel]] : List (List Pixel)).getD i []).length : ℝ)),
          B := ((([[zeroPixel]] : List (List Pixel)).getD i []).map Pixel.B).sum /
            (((([[zeroPixel]] : List (List Pixel)).getD i []).length : ℝ)) }) ∧
    (∀ i < ([zeroPixel] : List Pixel).length,
      distance (([zeroPixel] : List Pixel).getD i zeroPixel)
          ((updateCentroids [zeroPixel] [[zeroPixel]]).1.getD i zeroPixel) ≤
        (updateCentroids [zeroPixel] [[zeroPixel]]).2) ∧
    ((updateCentroids [zeroPixel] [[zeroPixel]]).2 = 0 ∨
      ∃ i < ([zeroPixel] : List Pixel).length,
        distance (([zeroPixel] : List Pixel).getD i zeroPixel)
            ((updateCentroids [zeroPixel] [[zeroPixel]]).1.getD i zeroPixel) =
          (updateCentroids [zeroPixel] [[zeroPixel]]).2) ∧
    (kmeansLoop [zeroPixel] 1 1 0 [zeroPixel] = some [zeroPixel]) ∧
    ((updateCentroids [zeroPixel] [[zeroPixel]]).2 < 1 →
      kmeansLoop [zeroPixel] 1 1 (0 + 1) [zeroPixel] =
        some (updateCentroids [zeroPixel] [[zeroPixel]]).1) ∧
    (¬(updateCentroids [zeroPixel] [[zeroPixel]]).2 < 1 →
      kmeansLoop [zeroPixel] 1 1 (0 + 1) [zeroPixel] =
        kmeansLoop [zeroPixel] 1 1 0 (updateCentroids [zeroPixel] [[zeroPixel]]).1) :=
  C5_kmeans_round [zeroPixel] [zeroPixel] [[zeroPixel]] 1 1 0
    (assignClusters_singleton zeroPixel zeroPixel)

/-! ### C2: totality versus the rand.Intn(0) panic -/

theorem initCentroids_nil_none (k : ℤ) (rnd : ℕ → ℕ) (hk : 0 < k) :
    initCentroids [] k rnd = none := by
  unfold initCentroids
  rw [if_neg (by omega)]
  obtain ⟨m, hm⟩ : ∃ m, k.toNat = m + 1 := ⟨k.toNat - 1, by omega⟩
  rw [hm, List.range_succ_eq_map, List.mapM_cons]
  simp

theorem kmeans_nil_none (k maxIterations : ℤ) (tol : ℝ) (rnd : ℕ → ℕ) (hk : 0 < k) :
    kmeans [] k maxIterations tol rnd = none := by
  unfold kmeans
  rw [initCentroids_nil_none k rnd hk]

/-- A 1×1 monochrome source image. -/
def c2img : SrcImage :=
  { bounds := { minX := 0, minY := 0, maxX := 1, maxY := 1 },
    At := fun _ _ => { r := 65535, g := 0, b := 0, a := 65535 } }

/-- Positive K, BlockSize and Iterations with the in-bounds zero-size
region request {0, 0, 0, 0}. -/
def c2opts : MosaicOptions :=
  { K := 8, BlockSize := 10, Iterations := 50, Tolerance := 0.001,
    Region := some { X := 0, Y := 0, Width := 0, Height := 0 } }

theorem c2_pixels :
    imageToPixels c2img { X := 0, Y := 0, Width := 0, Height := 0 } = [] := by
  unfold imageToPixels
  rw [show ((0 : ℤ) + 0) = 0 from by norm_num]
  rw [stepRange_nil 0 0 1 (by norm_num)]
  rfl

/-- C2 counterexample: on a 1×1 image with positive K, BlockSize and
Iterations, the in-bounds zero-size region request {0,0,0,0} passes
validation uncorrected, the sample list is empty, and `rand.Intn(0)`
panics (modelled as `none`): `CreateMosaic` does not return an image. -/
theorem C2_zero_size_region_panics :
    CreateMosaic c2img (some c2opts) (fun _ => 0) = none ∧
    resolveRegion c2img.bounds c2opts.Region =
      { X := 0, Y := 0, Width := 0, Height := 0 } ∧
    0 < c2opts.K ∧ 0 < c2opts.BlockSize ∧ 0 < c2opts.Iterations := by
  refine ⟨?_, by decide, by decide, by decide, by decide⟩
  unfold CreateMosaic
  simp only [Option.getD_some]
  rw [show resolveRegion c2img.bounds c2opts.Region =
      { X := 0, Y := 0, Width := 0, Height := 0 } from by decide,
    c2_pixels,
    kmeans_nil_none c2opts.K c2opts.Iterations c2opts.Tolerance (fun _ => 0) (by decide)]

/-- C2 (amended): `CreateMosaic` with positive K, BlockSize and Iterations
returns an image for every source image and request whose resolved region
has strictly positive width and height (in particular for every
out-of-bounds request on a non-empty image, since those fall back to the
full image); but an in-bounds zero- or negative-size request is not
corrected and makes centroid initialisation panic on `rand.Intn(0)`. -/
theorem C2_total_on_positive_region (img : SrcImage) (opts : MosaicOptions)
    (rnd : ℕ → ℕ) (hK : 0 < opts.K) (hB : 0 < opts.BlockSize) (hI : 0 < opts.Iterations)
    (hresW : 0 < (resolveRegion img.bounds opts.Region).Width)
    (hresH : 0 < (resolveRegion img.bounds opts.Region).Height) :
    ∃ out, CreateMosaic img (some opts) rnd = some out := by
  have hpix : imageToPixels img (resolveRegion img.bounds opts.Region) ≠ [] :=
    imageToPixels_ne_nil img _ hresW hresH
  obtain ⟨cs, hkm, hlen, hne⟩ := kmeans_some
    (imageToPixels img (resolveRegion img.bounds opts.Region)) opts.K opts.Iterations
    opts.Tolerance rnd hK hpix
  exact ⟨_, by
    unfold CreateMosaic
    simp only [Option.getD_some]
    rw [hkm]
    exact renderBlocks_eq img (newCanvasCopy img) (resolveRegion img.bounds opts.Region)
      opts.BlockSize cs hne⟩

/-- C2 witness: the default options on the 2×1 image produce an image. -/
theorem C2_total_witness :
    ∃ out, CreateMosaic c1img (some DefaultOptions) (fun _ => 0) = some out :=
  C2_total_on_positive_region c1img DefaultOptions (fun _ => 0)
    (by decide) (by decide) (by decide) (by decide) (by decide)

theorem painted_of_in_interval (X W B x0 : ℤ) (hB : 0 < B) (h1 : X ≤ x0)
    (h2 : x0 < X + W) : B * ((x0 - X) / B) < W := by
  have hq := Int.ediv_add_emod (x0 - X) B
  have hr0 : 0 ≤ (x0 - X) % B := Int.emod_nonneg _ (by omega)
  omega

/-- C8: in the output image every block fully inside the resolved region is
painted a single color, and the pixels of the resolved region use at most
K distinct colors (each block color is one of the K centroids converted to
`color.RGBA`). -/
theorem C8_uniform_blocks_palette_bound (img : SrcImage) (opts : MosaicOptions)
    (rnd : ℕ → ℕ) (out : Canvas) (r : Region) (B : ℤ)
    (hB : 0 < B) (hBeq : B = opts.BlockSize)
    (hr : r = resolveRegion img.bounds opts.Region)
    (hout : CreateMosaic img (some opts) rnd = some out) :
    (∀ i j : ℕ, ∀ x y x2 y2 : ℤ,
      r.X + ((i : ℤ) + 1) * B ≤ r.X + r.Width →
      r.Y + ((j : ℤ) + 1) * B ≤ r.Y + r.Height →
      r.X + (i : ℤ) * B ≤ x → x < r.X + ((i : ℤ) + 1) * B →
      r.Y + (j : ℤ) * B ≤ y → y < r.Y + ((j : ℤ) + 1) * B →
      r.X + (i : ℤ) * B ≤ x2 → x2 < r.X + ((i : ℤ) + 1) * B →
      r.Y + (j : ℤ) * B ≤ y2 → y2 < r.Y + ((j : ℤ) + 1) * B →
      out.At x y = out.At x2 y2) ∧
    ((Finset.Ico r.X (r.X + r.Width) ×ˢ Finset.Ico r.Y (r.Y + r.Height)).image
        (fun q : ℤ × ℤ => out.At q.1 q.2)).card ≤ opts.K.toNat := by
  subst hBeq
  subst hr
  obtain ⟨cs, hkm, hrb⟩ := createMosaic_destruct img opts rnd out hout
  obtain ⟨hb1, hb2, hb3, hb4⟩ := resolveRegion_inBounds img.bounds opts.Region
  set r := resolveRegion img.bounds opts.Region with hrdef
  by_cases hdeg : 0 < r.Width ∧ 0 < r.Height
  · have hcs : cs ≠ [] :=
      renderBlocks_centroids_ne_nil img (newCanvasCopy img) r opts.BlockSize cs out hB
        hdeg.1 hdeg.2 hrb
    have hchar := renderBlocks_char img (newCanvasCopy img) r opts.BlockSize cs out hB
      hcs hrb
    constructor
    · intro i j x y x2 y2 hfx hfy hx1 hx2 hy1 hy2 hx21 hx22 hy21 hy22
      have hiB : ((i : ℤ) + 1) * opts.BlockSize = (i : ℤ) * opts.BlockSize +
          opts.BlockSize := by ring
      have hjB : ((j : ℤ) + 1) * opts.BlockSize = (j : ℤ) * opts.BlockSize +
          opts.BlockSize := by ring
      have hi0 : 0 ≤ (i : ℤ) * opts.BlockSize :=
        mul_nonneg (Int.natCast_nonneg i) (le_of_lt hB)
      have hj0 : 0 ≤ (j : ℤ) * opts.BlockSize :=
        mul_nonneg (Int.natCast_nonneg j) (le_of_lt hB)
      have key : ∀ a b : ℤ, r.X + (i : ℤ) * opts.BlockSize ≤ a →
          a < r.X + ((i : ℤ) + 1) * opts.BlockSize →
          r.Y + (j : ℤ) * opts.BlockSize ≤ b →
          b < r.Y + ((j : ℤ) + 1) * opts.BlockSize →
          out.At a b = chosenColor img r opts.BlockSize cs
            (r.X + (i : ℤ) * opts.BlockSize) (r.Y + (j : ℤ) * opts.BlockSize) := by
        intro a b ha1 ha2 hb1' hb2'
        have hanchX : r.X + opts.BlockSize * ((a - r.X) / opts.BlockSize) =
            r.X + (i : ℤ) * opts.BlockSize :=
          anchor_eq r.X opts.BlockSize a hB i ha1 (by omega)
        have hanchY : r.Y + opts.BlockSize * ((b - r.Y) / opts.BlockSize) =
            r.Y + (j : ℤ) * opts.BlockSize :=
          anchor_eq r.Y opts.BlockSize b hB j hb1' (by omega)
        rw [hchar.2 a b, if_pos ?_, hanchX, hanchY]
        refine ⟨by omega, by omega, by omega, by omega, ?_⟩
        show img.bounds.minX ≤ a ∧ a < img.bounds.maxX ∧
          img.bounds.minY ≤ b ∧ b < img.bounds.maxY
        omega
      rw [key x y hx1 hx2 hy1 hy2, key x2 y2 hx21 hx22 hy21 hy22]
    · have hsub : (Finset.Ico r.X (r.X + r.Width) ×ˢ
          Finset.Ico r.Y (r.Y + r.Height)).image (fun q : ℤ × ℤ => out.At q.1 q.2) ⊆
          (cs.map blockColorOf).toFinset := by
        intro col hcol
        obtain ⟨⟨a, b⟩, hmem, rfl⟩ := Finset.mem_image.1 hcol
        obtain ⟨hax, hay⟩ := Finset.mem_product.1 hmem
        rw [Finset.mem_Ico] at hax hay
        rw [hchar.2 a b, if_pos ?_]
        · unfold chosenColor
          have hidx := findNearestCentroidIndex_lt_length
            (averagePixels (blockPixels img r opts.BlockSize
              (r.X + opts.BlockSize * ((a - r.X) / opts.BlockSize))
              (r.Y + opts.BlockSize * ((b - r.Y) / opts.BlockSize)))) cs hcs
          rw [List.mem_toFinset, List.getD_eq_getElem cs zeroPixel hidx]
          exact List.mem_map.2 ⟨_, List.getElem_mem hidx, rfl⟩
        · refine ⟨hax.1, painted_of_in_interval _ _ _ _ hB hax.1 hax.2,
            hay.1, painted_of_in_interval _ _ _ _ hB hay.1 hay.2, ?_⟩
          show img.bounds.minX ≤ a ∧ a < img.bounds.maxX ∧
            img.bounds.minY ≤ b ∧ b < img.bounds.maxY
          omega
      calc ((Finset.Ico r.X (r.X + r.Width) ×ˢ Finset.Ico r.Y (r.Y + r.Height)).image
              (fun q : ℤ × ℤ => out.At q.1 q.2)).card
          ≤ (cs.map blockColorOf).toFinset.card := Finset.card_le_card hsub
        _ ≤ (cs.map blockColorOf).length := List.toFinset_card_le _
        _ = cs.length := List.length_map _ _
        _ = opts.K.toNat := kmeans_length _ _ _ _ _ _ hkm
  · constructor
    · intro i j x y x2 y2 hfx hfy
      exfalso
      have hiB : 0 < ((i : ℤ) + 1) * opts.BlockSize :=
        mul_pos (by have := Int.natCast_nonneg i; omega) hB
      have hjB : 0 < ((j : ℤ) + 1) * opts.BlockSize :=
        mul_pos (by have := Int.natCast_nonneg j; omega) hB
      exact hdeg ⟨by omega, by omega⟩
    · have : ¬(0 < r.Width) ∨ ¬(0 < r.Height) := by tauto
      rcases this with h | h
      · rw [Finset.Ico_eq_empty (by omega), Finset.empty_product, Finset.image_empty,
          Finset.card_empty]
        exact Nat.zero_le _
      · rw [Finset.Ico_eq_empty (by omega : ¬ r.Y < r.Y + r.Height),
          Finset.product_empty, Finset.image_empty, Finset.card_empty]
        exact Nat.zero_le _

/-- The output canvas of the concrete `c1img`/`c1opts` run. -/
noncomputable def c1out : Canvas :=
  (CreateMosaic c1img (some c1opts) (fun _ => 0)).getD (newCanvasCopy c1img)

theorem c1_create_some :
    CreateMosaic c1img (some c1opts) (fun _ => 0) = some c1out := by
  unfold c1out
  rw [c1_create, renderBlocks_eq c1img (newCanvasCopy c1img)
    { X := 0, Y := 0, Width := 1, Height := 1 } 2 [c1red] (by simp)]
  rfl

/-- C8 witness: the concrete 2×1 run, block grid anchored at the 1×1
region. -/
theorem C8_blocks_witness :
    (∀ i j : ℕ, ∀ x y x2 y2 : ℤ,
      ({ X := 0, Y := 0, Width := 1, Height := 1 } : Region).X + ((i : ℤ) + 1) * 2 ≤
        ({ X := 0, Y := 0, Width := 1, Height := 1 } : Region).X +
          ({ X := 0, Y := 0, Width := 1, Height := 1 } : Region).Width →
      ({ X := 0, Y := 0, Width := 1, Height := 1 } : Region).Y + ((j : ℤ) + 1) * 2 ≤
        ({ X := 0, Y := 0, Width := 1, Height := 1 } : Region).Y +
          ({ X := 0, Y := 0, Width := 1, Height := 1 } : Region).Height →
      ({ X := 0, Y := 0, Width := 1, Height := 1 } : Region).X + (i : ℤ) * 2 ≤ x →
      x < ({ X := 0, Y := 0, Width := 1, Height := 1 } : Region).X + ((i : ℤ) + 1) * 2 →
      ({ X := 0, Y := 0, Width := 1, Height := 1 } : Region).Y + (j : ℤ) * 2 ≤ y →
      y < ({ X := 0, Y := 0, Width := 1, Height := 1 } : Region).Y + ((j : ℤ) + 1) * 2 →
      ({ X := 0, Y := 0, Width := 1, Height := 1 } : Region).X + (i : ℤ) * 2 ≤ x2 →
      x2 < ({ X := 0, Y := 0, Width := 1, Height := 1 } : Region).X + ((i : ℤ) + 1) * 2 →
      ({ X := 0, Y := 0, Width := 1, Height := 1 } : Region).Y + (j : ℤ) * 2 ≤ y2 →
      y2 < ({ X := 0, Y := 0, Width := 1, Height := 1 } : Region).Y + ((j : ℤ) + 1) * 2 →
      c1out.At x y = c1out.At x2 y2) ∧
    ((Finset.Ico ({ X := 0, Y := 0, Width := 1, Height := 1 } : Region).X
          (({ X := 0, Y := 0, Width := 1, Height := 1 } : Region).X +
            ({ X := 0, Y := 0, Width := 1, Height := 1 } : Region).Width) ×ˢ
        Finset.Ico ({ X := 0, Y := 0, Width := 1, Height := 1 } : Region).Y
          (({ X := 0, Y := 0, Width := 1, Height := 1 } : Region).Y +
            ({ X := 0, Y := 0, Width := 1, Height := 1 } : Region).Height)).image
        (fun q : ℤ × ℤ => c1out.At q.1 q.2)).card ≤ c1opts.K.toNat :=
  C8_uniform_blocks_palette_bound c1img c1opts (fun _ => 0) c1out
    { X := 0, Y := 0, Width := 1, Height := 1 } 2 (by decide) rfl (by decide)
    c1_create_some

end Mosaic
